import Mathlib

set_option maxRecDepth 8000
set_option maxHeartbeats 1000000

namespace Corpo

/-! Shallow embedding of the accessibility-snapshot filtering engine of this
repository (the descriptor parser, forest builder, filter engine, JSON
serialization, size budget and variable store of
src/tools/snapshot-get-and-filter.ts).  Strings are modelled over their
character lists; the JavaScript character classes and case mapping are
modelled on the ASCII range, which covers all data this engine handles. -/

/-- ASCII range of the JavaScript whitespace class (backslash-s), as used by
String.prototype.trim and the text-extraction regular expression. -/
def isWsChar (c : Char) : Bool :=
  c = ' ' || c = '\t' || c = '\n' || c = '\r' || c = Char.ofNat 11 || c = Char.ofNat 12

/-- JavaScript word-character class (backslash-w). -/
def isWordChar (c : Char) : Bool :=
  ('a' ≤ c && c ≤ 'z') || ('A' ≤ c && c ≤ 'Z') || ('0' ≤ c && c ≤ '9') || c = '_'

/-- String.prototype.toLowerCase on the ASCII range. -/
def lowerChar (c : Char) : Char :=
  if 'A' ≤ c && c ≤ 'Z' then Char.ofNat (c.toNat + 32) else c

def lowerList (l : List Char) : List Char := l.map lowerChar

/-- String.prototype.trim (ASCII whitespace). -/
def trimList (l : List Char) : List Char :=
  ((l.dropWhile isWsChar).reverse.dropWhile isWsChar).reverse

/-- The candidate normalization `x.toLowerCase().trim()` used throughout the
text- and attribute-matching code. -/
def lowerTrim (s : String) : String := String.mk (trimList (lowerList s.data))

/-- String.prototype.includes: the needle occurs as a contiguous substring. -/
def listIncludes (hay needle : List Char) : Bool :=
  needle.isPrefixOf hay ||
    match hay with
    | [] => false
    | _ :: t => listIncludes t needle

def strContains (s pat : String) : Bool := listIncludes s.data pat.data

/-- The descriptor record returned by parseDescriptor. -/
structure Descriptor where
  role : String
  text : String
  attributes : List (String × String)
deriving DecidableEq, Repr

/-- JavaScript object assignment `m[k] = v` on a string-keyed record:
update in place when the key exists, append otherwise. -/
def setEntry (m : List (String × String)) (k v : String) : List (String × String) :=
  match m with
  | [] => [(k, v)]
  | (k0, v0) :: rest => if k0 = k then (k0, v) :: rest else (k0, v0) :: setEntry rest k v

/-- JavaScript record lookup `m[k]` (with `k in m` as isSome). -/
def getEntry (m : List (String × String)) (k : String) : Option String :=
  match m with
  | [] => none
  | (k0, v0) :: rest => if k0 = k then some v0 else getEntry rest k

/-- One attempt, anchored at the current position, of the text-extraction
regular expression: one or more whitespace characters, a double quote, a
nonempty run of non-quote characters (the capture), and a closing quote. -/
def tryTextAt (l : List Char) : Option (List Char) :=
  match l with
  | [] => none
  | c :: _ =>
    if isWsChar c then
      match l.dropWhile isWsChar with
      | q :: afterQ =>
        if q = '"' then
          let content := afterQ.takeWhile (fun d => !(d = '"'))
          match afterQ.drop content.length with
          | e :: _ => if e = '"' && !content.isEmpty then some content else none
          | [] => none
        else none
      | [] => none
    else none

/-- The first match of the text-extraction regular expression anywhere in the
line (the JavaScript engine retries at each successive start position). -/
def firstTextSeg : List Char → Option (List Char)
  | [] => none
  | c :: rest =>
    match tryTextAt (c :: rest) with
    | some t => some t
    | none => firstTextSeg rest

/-- All matches of the bracketed-segment regular expression, scanned left to
right as the global-flag exec loop does: each match is the nonempty run
between an opening bracket and the next closing bracket; an empty pair of
brackets is not a match and an unclosed bracket ends the scan.  The second
argument is the scanning state: none while looking for an opening bracket,
some of the reversed content accumulated so far while inside brackets. -/
def attrSegsAux : List Char → Option (List Char) → List (List Char)
  | [], _ => []
  | c :: rest, none =>
    if c = '[' then attrSegsAux rest (some []) else attrSegsAux rest none
  | c :: rest, some acc =>
    if c = ']' then
      if acc.isEmpty then attrSegsAux rest none
      else acc.reverse :: attrSegsAux rest none
    else attrSegsAux rest (some (c :: acc))

def attrSegs (l : List Char) : List (List Char) := attrSegsAux l none

/-- Splitting of one bracketed segment: a segment with no equals sign is a
flag attribute with value "true"; otherwise key and value split at the first
equals sign, both trimmed. -/
def parseAttrSeg (seg : List Char) : String × String :=
  let pre := seg.takeWhile (fun d => !(d = '='))
  if pre.length = seg.length then
    (String.mk (trimList seg), "true")
  else
    (String.mk (trimList pre), String.mk (trimList (seg.drop (pre.length + 1))))

/-- parseDescriptor from the source: role is the leading run of word
characters (defaulting to "generic"), text is the first whitespace-preceded
nonempty double-quoted segment (defaulting to the empty string), attributes
come from the bracketed segments scanned left to right. -/
def parseDescriptor (descriptor : String) : Descriptor :=
  let l := descriptor.data
  let roleRun := l.takeWhile isWordChar
  let role := if roleRun.isEmpty then "generic" else String.mk roleRun
  let text := match firstTextSeg l with
    | some t => String.mk t
    | none => ""
  let attributes := (attrSegs l).foldl
    (fun m seg => setEntry m (parseAttrSeg seg).1 (parseAttrSeg seg).2) []
  ⟨role, text, attributes⟩

/-- The AccessibilityNode tree entity of the source. -/
inductive AccessibilityNode : Type where
  | mk (role : String) (text : Option String) (attributes : List (String × String))
      (children : List AccessibilityNode) (rawDescriptor : String)

def AccessibilityNode.role : AccessibilityNode → String
  | .mk r _ _ _ _ => r

def AccessibilityNode.text : AccessibilityNode → Option String
  | .mk _ t _ _ _ => t

def AccessibilityNode.attributes : AccessibilityNode → List (String × String)
  | .mk _ _ a _ _ => a

def AccessibilityNode.children : AccessibilityNode → List AccessibilityNode
  | .mk _ _ _ cs _ => cs

def AccessibilityNode.rawDescriptor : AccessibilityNode → String
  | .mk _ _ _ _ raw => raw

/-- The nested structure produced by the external structural (YAML) decoder:
strings, arrays, string-keyed objects, and other scalars (null, booleans,
numbers) that the forest builder ignores. -/
inductive DecodedValue : Type where
  | str (s : String)
  | arr (items : List DecodedValue)
  | obj (fields : List (String × DecodedValue))
  | scalar

/-- String.prototype.startsWith "/" on the key of a property object. -/
def startsWithSlash (s : String) : Bool :=
  match s.data with
  | c :: _ => c = '/'
  | [] => false

/-- isDescriptorObject from the source: exactly one key, the key is not a
property-path marker (does not start with "/"), and the value is an array. -/
def isDescriptorObject (fields : List (String × DecodedValue)) : Bool :=
  match fields with
  | [(k, v)] => !(startsWithSlash k) && (match v with | .arr _ => true | _ => false)
  | _ => false

/-- The leaf node built from a plain descriptor line (with the given
children), as buildNodes constructs it. -/
def nodeOfLine (line : String) (children : List AccessibilityNode) : AccessibilityNode :=
  .mk (parseDescriptor line).role (some (parseDescriptor line).text)
    (parseDescriptor line).attributes children line

mutual
/-- buildNodes from the source.  The single-field object pattern with an array
value is exactly the isDescriptorObject condition of the source (one key, not
starting with "/", array value); every other object contributes no nodes, and
the source's non-array children fallback is unreachable. -/
def buildNodes : DecodedValue → List AccessibilityNode
  | .str s => [nodeOfLine s []]
  | .arr items => buildNodesList items
  | .obj [(descriptor, .arr items)] =>
    if startsWithSlash descriptor then []
    else [nodeOfLine descriptor (buildNodesList items)]
  | .obj _ => []
  | .scalar => []
termination_by structural v => v

def buildNodesList : List DecodedValue → List AccessibilityNode
  | [] => []
  | v :: rest => buildNodes v ++ buildNodesList rest
termination_by structural l => l
end

/-! The filter's text matchers.  The regex matcher is backed by the host's
RegExp engine; the model below covers the subset of the regular-expression
syntax this repository's filters and tests use (anchors, literals, the dot,
and character classes of plain characters), together with the flag validation
and the syntax errors (unclosed class, trailing backslash) of the host engine
that make construction throw. -/

inductive RTok : Type where
  | lit (c : Char)
  | dot
  | cls (neg : Bool) (cs : List Char)
  | anchorStart
  | anchorEnd
deriving DecidableEq

/-- The body of a character class: the accumulated content up to the closing
bracket and the remainder after it; none when the class is unclosed. -/
def splitCls : List Char → List Char → Option (List Char × List Char)
  | [], _ => none
  | c :: rest, acc =>
    if c = ']' then some (acc.reverse, rest) else splitCls rest (c :: acc)

/-- Pattern compilation, fuelled by the pattern length (the fuel never runs
out: every step consumes at least one character). -/
def compileRegexAux : Nat → List Char → Option (List RTok)
  | 0, _ => none
  | _ + 1, [] => some []
  | fuel + 1, c :: rest =>
    if c = '\\' then
      match rest with
      | [] => none
      | d :: rest2 => (compileRegexAux fuel rest2).map (fun ts => RTok.lit d :: ts)
    else if c = '[' then
      let body :=
        match rest with
        | '^' :: rest2 => (splitCls rest2 []).map (fun p => (true, p.1, p.2))
        | _ => (splitCls rest []).map (fun p => (false, p.1, p.2))
      match body with
      | none => none
      | some (neg, cs, remainder) =>
        (compileRegexAux fuel remainder).map (fun ts => RTok.cls neg cs :: ts)
    else if c = '.' then (compileRegexAux fuel rest).map (fun ts => RTok.dot :: ts)
    else if c = '^' then (compileRegexAux fuel rest).map (fun ts => RTok.anchorStart :: ts)
    else if c = '$' then (compileRegexAux fuel rest).map (fun ts => RTok.anchorEnd :: ts)
    else (compileRegexAux fuel rest).map (fun ts => RTok.lit c :: ts)

structure CompiledRegex where
  toks : List RTok
  ignoreCase : Bool
deriving DecidableEq

/-- The RegExp constructor: validates the flags and compiles the pattern;
none models a thrown SyntaxError. -/
def compileRegex (pattern : String) (flags : String) : Option CompiledRegex :=
  if flags.data.all (fun c => ['d', 'g', 'i', 'm', 's', 'u', 'v', 'y'].contains c) then
    (compileRegexAux (pattern.data.length + 1) pattern.data).map
      (fun ts => ⟨ts, flags.data.contains 'i'⟩)
  else none

def charEqCase (ic : Bool) (a b : Char) : Bool :=
  if ic then lowerChar a = lowerChar b else a = b

def charInCls (ic : Bool) (c : Char) (neg : Bool) (cs : List Char) : Bool :=
  let mem := cs.any (fun d => charEqCase ic c d)
  if neg then !mem else mem

/-- Matching the token sequence at one position (pos is the absolute index,
used by the start anchor; without the multiline flag the end anchor only
matches at the very end). -/
def matchToks (ic : Bool) : List RTok → Nat → List Char → Bool
  | [], _, _ => true
  | .anchorStart :: rest, pos, s => (pos == 0) && matchToks ic rest pos s
  | .anchorEnd :: rest, pos, s => s.isEmpty && matchToks ic rest pos s
  | .dot :: rest, pos, s =>
    match s with
    | [] => false
    | c :: t => !(c = '\n' || c = '\r') && matchToks ic rest (pos + 1) t
  | .lit c :: rest, pos, s =>
    match s with
    | [] => false
    | d :: t => charEqCase ic d c && matchToks ic rest (pos + 1) t
  | .cls neg cs :: rest, pos, s =>
    match s with
    | [] => false
    | d :: t => charInCls ic d neg cs && matchToks ic rest (pos + 1) t

/-- RegExp.prototype.test: search for a match at each successive position. -/
def searchFrom (ic : Bool) (toks : List RTok) : Nat → List Char → Bool
  | pos, [] => matchToks ic toks pos []
  | pos, c :: t => matchToks ic toks pos (c :: t) || searchFrom ic toks (pos + 1) t

def regexTest (re : CompiledRegex) (s : String) : Bool :=
  searchFrom re.ignoreCase re.toks 0 s.data

/-! The filter specification and the matching engine. -/

inductive TextMatch : Type where
  | equals (s : String)
  | contains (s : String)
  | regex (pattern : String) (flags : Option String)
deriving DecidableEq

inductive FilterMode : Type where
  | first
  | all
deriving DecidableEq

/-- The filter argument of findMatches. -/
structure FindFilter where
  role : Option (String ⊕ List String)
  text : Option TextMatch
  attributes : Option (List (String × String))
  includeSubtree : Bool
  mode : FilterMode
  maxResults : Option Nat

/-- textMatches from the source.  The RegExp construction throws on an
invalid pattern or invalid flags; that exceptional exit is modelled by
Except.error.  A null/undefined candidate is rejected before any regex
construction. -/
def textMatches (candidate : Option String) (matcher : Option TextMatch) :
    Except Unit Bool :=
  match matcher with
  | none => .ok true
  | some m =>
    match candidate with
    | none => .ok false
    | some c =>
      match m with
      | .equals e => .ok (lowerTrim c == lowerTrim e)
      | .contains t => .ok (listIncludes (lowerTrim c).data (lowerTrim t).data)
      | .regex p fl =>
        match compileRegex p (fl.getD "") with
        | some re => .ok (regexTest re (lowerTrim c))
        | none => .error ()

/-- attributesMatch from the source: every required key must be present
(case-sensitively) with a value equal up to lowercasing and trimming. -/
def attributesMatch (candidate : List (String × String))
    (required : Option (List (String × String))) : Bool :=
  match required with
  | none => true
  | some req => req.all (fun kv =>
      match getEntry candidate kv.1 with
      | none => false
      | some v => lowerTrim v == lowerTrim kv.2)

/-- The role set built at the top of findMatches: an array argument becomes
the set of its elements, a non-empty string a singleton, and a missing (or
falsy, i.e. empty-string) argument no role restriction. -/
def rolesOf : Option (String ⊕ List String) → Option (List String)
  | some (.inr l) => some l
  | some (.inl s) => if s = "" then none else some [s]
  | none => none

def rolePass (f : FindFilter) (r : String) : Bool :=
  match rolesOf f.role with
  | none => true
  | some rs => rs.contains r

/-- The match condition of visit: role membership, then text match, then
attribute subset match (the conjunction short-circuits, so the regex is only
constructed when the role passes and the candidate text is present). -/
def nodeMatches (f : FindFilter) (n : AccessibilityNode) : Except Unit Bool :=
  if rolePass f n.role then do
    let t ← textMatches n.text f.text
    if t then pure (attributesMatch n.attributes f.attributes) else pure false
  else pure false

mutual
/-- cloneNode from the source: a deep structural copy. -/
def cloneNode : AccessibilityNode → AccessibilityNode
  | .mk r t a cs raw => .mk r t a (cloneNodeList cs) raw
termination_by structural n => n

def cloneNodeList : List AccessibilityNode → List AccessibilityNode
  | [] => []
  | n :: rest => cloneNode n :: cloneNodeList rest
termination_by structural l => l
end

/-- The copy of a matched node recorded by visit: fields preserved, children
deep-copied when includeSubtree is set and emptied otherwise. -/
def mkCopy (f : FindFilter) (n : AccessibilityNode) : AccessibilityNode :=
  .mk n.role n.text n.attributes
    (if f.includeSubtree then cloneNodeList n.children else []) n.rawDescriptor

/-- The stop test `filter.maxResults && results.length >= filter.maxResults`
(a zero maxResults is falsy and never stops). -/
def capReached (mr : Option Nat) (len : Nat) : Bool :=
  match mr with
  | none => false
  | some m => !(m == 0) && (m ≤ len : Bool)

mutual
/-- The visit closure of findMatches: tests the node, records a copy on a
match, stops globally in first mode or once maxResults is reached, and
otherwise descends into the children.  The Bool of the result is the stop
flag; the list accumulates the results pushed so far. -/
def visit (f : FindFilter) :
    AccessibilityNode → List AccessibilityNode →
    Except Unit (List AccessibilityNode × Bool)
  | .mk r t a cs raw, results => do
    let n := AccessibilityNode.mk r t a cs raw
    let m ← nodeMatches f n
    let state :=
      if m then
        let results1 := results ++ [mkCopy f n]
        (results1, decide (f.mode = FilterMode.first) || capReached f.maxResults results1.length)
      else (results, false)
    if state.2 then pure (state.1, true)
    else visitChildren f cs state.1
termination_by structural n => n

def visitChildren (f : FindFilter) :
    List AccessibilityNode → List AccessibilityNode →
    Except Unit (List AccessibilityNode × Bool)
  | [], results => pure (results, false)
  | c :: rest, results => do
    let r1 ← visit f c results
    if r1.2 then pure (r1.1, true) else visitChildren f rest r1.1
termination_by structural l => l
end

/-- findMatches from the source: visit every root in order until a visit
reports the stop flag, then return the collected results. -/
def findMatches (nodes : List AccessibilityNode) (f : FindFilter) :
    Except Unit (List AccessibilityNode) := do
  let r ← visitChildren f nodes []
  pure r.1

/-- The result list of a findMatches run, with an error collapsed to the
empty list (used only to state concrete evaluations). -/
def resultList (e : Except Unit (List AccessibilityNode)) : List AccessibilityNode :=
  match e with
  | .ok l => l
  | .error _ => []

def isErr (e : Except Unit (List AccessibilityNode)) : Bool :=
  match e with
  | .ok _ => false
  | .error _ => true

/-! JSON.stringify(matches, null, 2): the exact pretty-printed serialization
of the match list, used for the size budget, the stored payload, and (via the
sibling JSON-source tool) chained filtering.  The string escaping covers the
characters this engine's data can contain. -/

def lbrace : Char := Char.ofNat 123

def rbrace : Char := Char.ofNat 125

def jsonEscapeChar (c : Char) : List Char :=
  if c = '"' then ['\\', '"']
  else if c = '\\' then ['\\', '\\']
  else if c = '\n' then ['\\', 'n']
  else if c = '\r' then ['\\', 'r']
  else if c = '\t' then ['\\', 't']
  else [c]

def jsonQuote (s : String) : List Char :=
  '"' :: (s.data.map jsonEscapeChar).flatten ++ ['"']

/-- Two-space indentation at the given depth. -/
def jIndent (depth : Nat) : List Char := List.replicate (2 * depth) ' '

def joinSep (sep : List Char) : List (List Char) → List Char
  | [] => []
  | [x] => x
  | x :: y :: rest => x ++ sep ++ joinSep sep (y :: rest)

def jArray (depth : Nat) (items : List (List Char)) : List Char :=
  match items with
  | [] => ['[', ']']
  | _ =>
    ['[', '\n'] ++ joinSep [',', '\n'] (items.map (fun it => jIndent (depth + 1) ++ it)) ++
      ['\n'] ++ jIndent depth ++ [']']

def jField (depth : Nat) (kv : String × List Char) : List Char :=
  jIndent depth ++ jsonQuote kv.1 ++ [':', ' '] ++ kv.2

def jObject (depth : Nat) (fields : List (String × List Char)) : List Char :=
  match fields with
  | [] => [lbrace, rbrace]
  | _ =>
    [lbrace, '\n'] ++ joinSep [',', '\n'] (fields.map (jField (depth + 1))) ++
      ['\n'] ++ jIndent depth ++ [rbrace]

/-- The serialized fields of one node, in insertion order; an undefined text
is omitted by JSON.stringify. -/
def jNodeFields (depth : Nat) (r : String) (t : Option String)
    (a : List (String × String)) (childrenJson : List Char) (raw : String) :
    List (String × List Char) :=
  [("role", jsonQuote r)] ++
    (match t with
     | some ts => [("text", jsonQuote ts)]
     | none => []) ++
    [("attributes", jObject (depth + 1) (a.map (fun kv => (kv.1, jsonQuote kv.2)))),
     ("children", childrenJson),
     ("rawDescriptor", jsonQuote raw)]

mutual
def jNode (depth : Nat) : AccessibilityNode → List Char
  | .mk r t a cs raw =>
    jObject depth (jNodeFields depth r t a (jArray (depth + 1) (jNodeList (depth + 2) cs)) raw)
termination_by structural n => n

def jNodeList (depth : Nat) : List AccessibilityNode → List (List Char)
  | [] => []
  | n :: rest => jNode depth n :: jNodeList depth rest
termination_by structural l => l
end

/-- JSON.stringify(matches, null, 2). -/
def stringifyMatches (ms : List AccessibilityNode) : String :=
  String.mk (jArray 0 (jNodeList 1 ms))

/-! A JSON reader for the chained-filtering input format (the serialized
match list), fuelled by the input length.  It covers the JSON fragment that
serialized match lists consist of: strings, arrays and objects. -/

def skipWsL (l : List Char) : List Char := l.dropWhile isWsChar

def parseJString : List Char → List Char → Option (String × List Char)
  | [], _ => none
  | '"' :: rest, acc => some (String.mk acc.reverse, rest)
  | '\\' :: [], _ => none
  | '\\' :: e :: rest2, acc =>
    parseJString rest2
      ((if e = 'n' then '\n' else if e = 'r' then '\r' else if e = 't' then '\t' else e) :: acc)
  | c :: rest, acc => parseJString rest (c :: acc)

mutual
def parseJValue : Nat → List Char → Option (DecodedValue × List Char)
  | 0, _ => none
  | fuel + 1, l =>
    match skipWsL l with
    | [] => none
    | c :: rest =>
      if c = '"' then
        (parseJString rest []).map (fun p => (DecodedValue.str p.1, p.2))
      else if c = '[' then
        match skipWsL rest with
        | ']' :: rest2 => some (DecodedValue.arr [], rest2)
        | _ => (parseJItems fuel rest).map (fun p => (DecodedValue.arr p.1, p.2))
      else if c = lbrace then
        match skipWsL rest with
        | d :: rest2 =>
          if d = rbrace then some (DecodedValue.obj [], rest2)
          else (parseJFields fuel rest).map (fun p => (DecodedValue.obj p.1, p.2))
        | [] => none
      else none

def parseJItems : Nat → List Char → Option (List DecodedValue × List Char)
  | 0, _ => none
  | fuel + 1, l => do
    let (v, rest) ← parseJValue fuel l
    match skipWsL rest with
    | ',' :: rest2 => (parseJItems fuel rest2).map (fun p => (v :: p.1, p.2))
    | ']' :: rest2 => some ([v], rest2)
    | _ => none

def parseJFields : Nat → List Char → Option (List (String × DecodedValue) × List Char)
  | 0, _ => none
  | fuel + 1, l =>
    match skipWsL l with
    | c :: rest =>
      if c = '"' then do
        let (k, rest1) ← parseJString rest []
        match skipWsL rest1 with
        | ':' :: rest2 => do
          let (v, rest3) ← parseJValue fuel rest2
          match skipWsL rest3 with
          | ',' :: rest4 => (parseJFields fuel rest4).map (fun p => ((k, v) :: p.1, p.2))
          | d :: rest4 =>
            if d = rbrace then some ([(k, v)], rest4) else none
          | [] => none
        | _ => none
      else none
    | [] => none
end

/-- JSON.parse, on the fragment above; the error message is the decoder's. -/
def jsonParse (s : String) : Except String DecodedValue :=
  match parseJValue (s.data.length + 1) s.data with
  | some (v, rest) =>
    if skipWsL rest = [] then .ok v else .error "Unexpected non-whitespace character after JSON data"
  | none => .error "Unexpected token in JSON"

/-! Rebuilding nodes from a decoded serialized match list (the JSON-shaped
alternative source format of the chained-filtering tool). -/

def jFieldLookup (fields : List (String × DecodedValue)) (k : String) : Option DecodedValue :=
  match fields with
  | [] => none
  | (k0, v) :: rest => if k0 = k then some v else jFieldLookup rest k

def jStrField (fields : List (String × DecodedValue)) (k : String) : Option String :=
  match jFieldLookup fields k with
  | some (.str s) => some s
  | _ => none

def jAttrsOf (fields : List (String × DecodedValue)) : List (String × String) :=
  match jFieldLookup fields "attributes" with
  | some (.obj afs) =>
    afs.filterMap (fun kv => match kv.2 with | .str v => some (kv.1, v) | _ => none)
  | _ => []

mutual
/-- Modelled from the spec: the engine must accept an already-serialized
match list (JSON-shaped) as its source tree; each object record of the array
becomes a node through its role, text, attributes, children and
rawDescriptor fields (best-effort defaults for missing fields). -/
def jsonNodes : DecodedValue → List AccessibilityNode
  | .arr items => jsonNodesList items
  | _ => []
termination_by structural v => v

def jsonNodesList : List DecodedValue → List AccessibilityNode
  | [] => []
  | .obj fields :: rest =>
    AccessibilityNode.mk ((jStrField fields "role").getD "generic") (jStrField fields "text")
      (jAttrsOf fields) (jsonChildrenOf fields) ((jStrField fields "rawDescriptor").getD "") ::
      jsonNodesList rest
  | _ :: rest => jsonNodesList rest
termination_by structural l => l

def jsonChildrenOf : List (String × DecodedValue) → List AccessibilityNode
  | [] => []
  | (k, v) :: rest => if k = "children" then jsonNodes v else jsonChildrenOf rest
termination_by structural l => l
end

/-! The variable store and the tool's execute function. -/

def getVariable (st : List (String × String)) (name : String) : Option String :=
  getEntry st name

def setVariable (st : List (String × String)) (name value : String) :
    List (String × String) :=
  setEntry st name value

def apos : Char := Char.ofNat 39

/-- A name wrapped in single quotes, as the reason strings format it. -/
def quoted (s : String) : String := String.mk (apos :: s.data ++ [apos])

def varNotFoundReason (name : String) : String :=
  "Variable " ++ quoted name ++ " not found"

def MAX_JSON_CHARS : Nat := 30000

def tooLargeReason (len : Nat) : String :=
  "Filtered result too large (" ++ toString len ++ " > " ++ toString MAX_JSON_CHARS ++
    " chars). Narrow your filter: restrict " ++ quoted "role" ++ "/" ++ quoted "text" ++ "/" ++
    quoted "attributes" ++ ", avoid " ++ quoted "includeSubtree" ++
    " unless required, or set " ++ quoted "maxResults" ++ "."

/-- The validated tool arguments ("variable" is rendered as varName; the
filter object's three members are flattened). -/
structure ToolInput where
  varName : String
  filterRole : Option (String ⊕ List String)
  filterText : Option TextMatch
  filterAttributes : Option (List (String × String))
  includeSubtree : Bool
  mode : FilterMode
  maxResults : Option Nat
  storeInVariable : Option String

/-- The structured result value of the tool. -/
structure ToolResult where
  success : Bool
  count : Nat
  json : Option String
  reason : Option String
deriving DecidableEq

def filterOf (inp : ToolInput) : FindFilter :=
  ⟨inp.filterRole, inp.filterText, inp.filterAttributes, inp.includeSubtree,
    inp.mode, inp.maxResults⟩

/-- The execute function of snapshotGetAndFilterTool.  The external YAML
decoder is a parameter; its exceptions are modelled by its Except result and
caught as in the source.  A missing or empty (falsy) variable fails
early; an uncaught exception from the regex construction escapes as
Except.error; the store is written only on the success path, and only under
a non-empty (truthy) storeInVariable name. -/
def snapshotGetAndFilterExecute (decodeYaml : String → Except String DecodedValue)
    (st : List (String × String)) (inp : ToolInput) :
    Except Unit (ToolResult × List (String × String)) :=
  match getVariable st inp.varName with
  | none => .ok (⟨false, 0, none, some (varNotFoundReason inp.varName)⟩, st)
  | some raw =>
    if raw = "" then .ok (⟨false, 0, none, some (varNotFoundReason inp.varName)⟩, st)
    else
      match decodeYaml raw with
      | .error msg => .ok (⟨false, 0, none, some ("Failed to parse YAML: " ++ msg)⟩, st)
      | .ok parsed => do
        let ms ← findMatches (buildNodes parsed) (filterOf inp)
        let json := stringifyMatches ms
        if MAX_JSON_CHARS < json.length then
          pure (⟨false, ms.length, none, some (tooLargeReason json.length)⟩, st)
        else
          pure (⟨true, ms.length, some json, none⟩,
            match inp.storeInVariable with
            | some nm => if nm = "" then st else setVariable st nm json
            | none => st)

/-- Modelled from the spec: the repository's chained-filtering tool
(snapshotFilterJsonTool of snapshot.ts) is not under src/ — only its tests
and callers are.  Per the spec, the engine accepts an already-serialized
match list (JSON-shaped) as its source tree, enabling chained/composable
filtering, with the same filter engine, size budget, failure-as-data and
store policy as the raw-snapshot tool. -/
def snapshotFilterJsonExecute (st : List (String × String)) (inp : ToolInput) :
    Except Unit (ToolResult × List (String × String)) :=
  match getVariable st inp.varName with
  | none => .ok (⟨false, 0, none, some (varNotFoundReason inp.varName)⟩, st)
  | some raw =>
    if raw = "" then .ok (⟨false, 0, none, some (varNotFoundReason inp.varName)⟩, st)
    else
      match jsonParse raw with
      | .error msg => .ok (⟨false, 0, none, some ("Failed to parse JSON: " ++ msg)⟩, st)
      | .ok parsed => do
        let ms ← findMatches (jsonNodes parsed) (filterOf inp)
        let json := stringifyMatches ms
        if MAX_JSON_CHARS < json.length then
          pure (⟨false, ms.length, none, some (tooLargeReason json.length)⟩, st)
        else
          pure (⟨true, ms.length, some json, none⟩,
            match inp.storeInVariable with
            | some nm => if nm = "" then st else setVariable st nm json
            | none => st)

/-! Specification-side notions used to state the traversal and parser
properties: the pre-order flattening of a forest, the total Boolean form of
the match predicate (meaningful whenever the filter's regex, if any,
compiles), and the effective result cap. -/

mutual
/-- Depth-first pre-order flattening of a subtree: the node before its
children, children left to right. -/
def preorder : AccessibilityNode → List AccessibilityNode
  | .mk r t a cs raw => .mk r t a cs raw :: preorderList cs
termination_by structural n => n

def preorderList : List AccessibilityNode → List AccessibilityNode
  | [] => []
  | n :: rest => preorder n ++ preorderList rest
termination_by structural l => l
end

/-- Total form of textMatches (the value it returns whenever it does not
throw). -/
def textMatchesB (candidate : Option String) (matcher : Option TextMatch) : Bool :=
  match matcher with
  | none => true
  | some m =>
    match candidate with
    | none => false
    | some c =>
      match m with
      | .equals e => lowerTrim c == lowerTrim e
      | .contains t => listIncludes (lowerTrim c).data (lowerTrim t).data
      | .regex p fl =>
        match compileRegex p (fl.getD "") with
        | some re => regexTest re (lowerTrim c)
        | none => false

/-- Total form of the visit match condition. -/
def nodeMatchesB (f : FindFilter) (n : AccessibilityNode) : Bool :=
  rolePass f n.role && textMatchesB n.text f.text && attributesMatch n.attributes f.attributes

/-- The filter's regex (if any) compiles, so the traversal cannot throw. -/
def compileOk (f : FindFilter) : Prop :=
  match f.text with
  | some (.regex p fl) => (compileRegex p (fl.getD "")).isSome = true
  | _ => True

/-- The effective result cap: a missing or zero (falsy) maxResults is no cap. -/
def effCap : Option Nat → Option Nat
  | none => none
  | some m => if m = 0 then none else some m

def optTake (o : Option Nat) (l : List AccessibilityNode) : List AccessibilityNode :=
  match o with
  | none => l
  | some k => l.take k

/-- The remaining budget once acc results are already collected. -/
def capRemaining (mr : Option Nat) (k : Nat) : Option Nat :=
  match effCap mr with
  | none => none
  | some m => some (m - k)

/-- The copies of the pre-order-matching nodes of one subtree. -/
def matchedPreN (f : FindFilter) (n : AccessibilityNode) : List AccessibilityNode :=
  ((preorder n).filter (fun x => nodeMatchesB f x)).map (mkCopy f)

/-- The copies of the pre-order-matching nodes of a forest. -/
def matchedPre (f : FindFilter) (ns : List AccessibilityNode) : List AccessibilityNode :=
  ((preorderList ns).filter (fun x => nodeMatchesB f x)).map (mkCopy f)

/-- Specification wording of the attribute-segment split: key and value
separated at the first equals sign (the span at the not-equals predicate),
both trimmed; no equals sign means a flag attribute with value "true". -/
def splitAttrSegSpec (seg : List Char) : String × String :=
  match seg.span (fun d => !(d = '=')) with
  | (_, []) => (String.mk (trimList seg), "true")
  | (pre, _ :: post) => (String.mk (trimList pre), String.mk (trimList post))

/-- Specification wording of the descriptor parser: the leading run of word
characters as the role (a generic default when there is none), the first
whitespace-preceded nonempty quoted segment as the text (empty default), and
the bracketed segments folded left to right into the attribute record. -/
def parseDescriptorSpec (descriptor : String) : Descriptor :=
  let p := descriptor.data.span isWordChar
  ⟨if p.1 = [] then "generic" else String.mk p.1,
    (match firstTextSeg descriptor.data with
     | some t => String.mk t
     | none => ""),
    (attrSegs descriptor.data).foldl
      (fun m seg => setEntry m (splitAttrSegSpec seg).1 (splitAttrSegSpec seg).2) []⟩

/-! Concrete scenarios from the specification. -/

/-- One of the 2,000 synthetic sibling rows of the size-budget scenario. -/
def c1Line (i : Nat) : String := "row " ++ ("\"Item" ++ (Nat.repr i ++ "\""))

def c1Rows (k : Nat) : List DecodedValue :=
  (List.range k).map (fun i => DecodedValue.str (c1Line i))

def c1Val : DecodedValue := .obj [("table", .arr (c1Rows 2000))]

def c1Decode : String → Except String DecodedValue := fun _ => .ok c1Val

def c1Store : List (String × String) := [("large_snapshot", "snapshot")]

def c1Input : ToolInput :=
  ⟨"large_snapshot", some (.inl "row"), none, none, false, .all, none, none⟩

/-- The chained-filtering scenario: the synthetic three-row table source. -/
def c2Decode : String → Except String DecodedValue := fun _ =>
  .ok (.obj [("table", .arr [.str "row \"Item A\" [kind=a]", .str "row \"Item B\" [kind=b]",
    .str "row \"Another A\" [kind=a]"])])

def c2St0 : List (String × String) := [("synthetic_yaml", "yaml")]

def c2In1 : ToolInput :=
  ⟨"synthetic_yaml", some (.inl "row"), none, none, false, .all, none, some "rows_json"⟩

def c2St1 : List (String × String) :=
  match snapshotGetAndFilterExecute c2Decode c2St0 c2In1 with
  | .ok (_, st) => st
  | .error _ => []

def c2Count1 : Nat :=
  match snapshotGetAndFilterExecute c2Decode c2St0 c2In1 with
  | .ok (r, _) => r.count
  | .error _ => 0

def c2In2 : ToolInput :=
  ⟨"rows_json", none, some (.contains "Item"), none, false, .all, none, some "items_only_json"⟩

def c2St2 : List (String × String) :=
  match snapshotFilterJsonExecute c2St1 c2In2 with
  | .ok (_, st) => st
  | .error _ => []

def c2Count2 : Nat :=
  match snapshotFilterJsonExecute c2St1 c2In2 with
  | .ok (r, _) => r.count
  | .error _ => 0

def c2Json2 : String :=
  match snapshotFilterJsonExecute c2St1 c2In2 with
  | .ok (r, _) => r.json.getD ""
  | .error _ => ""

def c2In3 : ToolInput :=
  ⟨"items_only_json", none, none, some [("kind", "a")], false, .all, none, some "items_kind_a"⟩

def c2Count3 : Nat :=
  match snapshotFilterJsonExecute c2St2 c2In3 with
  | .ok (r, _) => r.count
  | .error _ => 0

def c2Json3 : String :=
  match snapshotFilterJsonExecute c2St2 c2In3 with
  | .ok (r, _) => r.json.getD ""
  | .error _ => ""

/-- The texts of the second-stage matches, recomputed from the stored
first-stage payload through the JSON parser and the filter engine. -/
def c2Texts2 : List (Option String) :=
  match getVariable c2St1 c2In2.varName with
  | some raw =>
    match jsonParse raw with
    | .ok parsed => (resultList (findMatches (jsonNodes parsed) (filterOf c2In2))).map
        (fun n => n.text)
    | .error _ => []
  | none => []

/-- The texts of the third-stage matches, recomputed from the stored
second-stage payload. -/
def c2Texts3 : List (Option String) :=
  match getVariable c2St2 c2In3.varName with
  | some raw =>
    match jsonParse raw with
    | .ok parsed => (resultList (findMatches (jsonNodes parsed) (filterOf c2In3))).map
        (fun n => n.text)
    | .error _ => []
  | none => []

/-- The regex-with-flags scenario: three rows filtered by a case-insensitive
anchored pattern. -/
def c8Nodes : List AccessibilityNode :=
  buildNodes (.arr [.str "row \"Item A\"", .str "row \"item b\"", .str "row \"Misc\""])

def c8Filter : FindFilter :=
  ⟨some (.inl "row"), some (.regex "^item [ab]$" (some "i")), none, false, .all, none⟩

/-! Basic lemmas. -/

theorem listIncludes_iff (hay needle : List Char) :
    listIncludes hay needle = true ↔ needle <:+: hay := by
  induction hay with
  | nil =>
    rw [listIncludes]
    cases needle <;> simp [List.isPrefixOf]
  | cons c t ih =>
    rw [listIncludes]
    simp only [Bool.or_eq_true, List.isPrefixOf_iff_prefix, ih]
    exact List.infix_cons_iff.symm

theorem strContains_of_infix {s pat : String} (h : pat.data <:+: s.data) :
    strContains s pat = true := by
  rw [strContains, listIncludes_iff]
  exact h

theorem capReached_eq (mr : Option Nat) (k : Nat) :
    capReached mr k =
      match effCap mr with
      | none => false
      | some m => decide (m ≤ k) := by
  cases mr with
  | none => rfl
  | some m =>
    by_cases h : m = 0 <;> simp [capReached, effCap, h]

theorem capReached_zero (mr : Option Nat) : capReached mr 0 = false := by
  rw [capReached_eq]
  cases h : effCap mr with
  | none => rfl
  | some m =>
    cases mr with
    | none => simp [effCap] at h
    | some m0 =>
      simp only [effCap] at h
      by_cases h0 : m0 = 0
      · simp [h0] at h
      · simp [h0] at h
        subst h
        simp [h0]

theorem textMatches_eq_ok (c : Option String) (matcher : Option TextMatch)
    (hc : ∀ p fl, matcher = some (.regex p fl) → (compileRegex p (fl.getD "")).isSome = true) :
    textMatches c matcher = .ok (textMatchesB c matcher) := by
  cases matcher with
  | none => rfl
  | some m =>
    cases c with
    | none => cases m <;> rfl
    | some s =>
      cases m with
      | equals e => rfl
      | contains t => rfl
      | regex p fl =>
        have h := hc p fl rfl
        rw [textMatches, textMatchesB]
        cases hcr : compileRegex p (fl.getD "") with
        | some re => rfl
        | none => rw [hcr] at h; simp at h

theorem compileOk_regex {f : FindFilter} (hc : compileOk f) :
    ∀ p fl, f.text = some (.regex p fl) → (compileRegex p (fl.getD "")).isSome = true := by
  intro p fl h
  rw [compileOk, h] at hc
  exact hc

theorem nodeMatches_eq_ok {f : FindFilter} (hc : compileOk f) (n : AccessibilityNode) :
    nodeMatches f n = .ok (nodeMatchesB f n) := by
  rw [nodeMatches, nodeMatchesB, textMatches_eq_ok n.text f.text (compileOk_regex hc)]
  cases hrp : rolePass f n.role with
  | false => simp [pure, Except.pure]
  | true =>
    simp only [if_true, Bool.true_and]
    cases htm : textMatchesB n.text f.text <;>
      simp [Bind.bind, Except.bind, pure, Except.pure]

mutual
theorem cloneNode_id : ∀ n : AccessibilityNode, cloneNode n = n
  | .mk r t a cs raw => by rw [cloneNode, cloneNodeList_id]
termination_by structural n => n

theorem cloneNodeList_id : ∀ l : List AccessibilityNode, cloneNodeList l = l
  | [] => by rw [cloneNodeList]
  | n :: rest => by rw [cloneNodeList, cloneNode_id n, cloneNodeList_id rest]
termination_by structural l => l
end

theorem preorderList_append (a b : List AccessibilityNode) :
    preorderList (a ++ b) = preorderList a ++ preorderList b := by
  induction a with
  | nil => rw [List.nil_append, preorderList, List.nil_append]
  | cons n rest ih =>
    rw [List.cons_append, preorderList, preorderList, ih, List.append_assoc]

theorem matchedPre_cons (f : FindFilter) (n : AccessibilityNode)
    (rest : List AccessibilityNode) :
    matchedPre f (n :: rest) = matchedPreN f n ++ matchedPre f rest := by
  rw [matchedPre, matchedPreN, matchedPre, preorderList, List.filter_append, List.map_append]

theorem matchedPre_nil (f : FindFilter) : matchedPre f [] = [] := rfl

theorem matchedPreN_match (f : FindFilter) (r : String) (t : Option String)
    (a : List (String × String)) (cs : List AccessibilityNode) (raw : String)
    (h : nodeMatchesB f (.mk r t a cs raw) = true) :
    matchedPreN f (.mk r t a cs raw) =
      mkCopy f (.mk r t a cs raw) :: matchedPre f cs := by
  rw [matchedPreN, preorder, List.filter_cons_of_pos h, List.map_cons, matchedPre]

theorem matchedPreN_nomatch (f : FindFilter) (r : String) (t : Option String)
    (a : List (String × String)) (cs : List AccessibilityNode) (raw : String)
    (h : nodeMatchesB f (.mk r t a cs raw) = false) :
    matchedPreN f (.mk r t a cs raw) = matchedPre f cs := by
  rw [matchedPreN, preorder, List.filter_cons_of_neg (by simp [h]), matchedPre]

theorem optTake_nil (o : Option Nat) : optTake o [] = [] := by
  cases o <;> simp [optTake]

/-- Below the cap, the remaining budget is at least one, so a singleton is
taken whole. -/
theorem optTake_singleton (mr : Option Nat) (k : Nat) (hb : capReached mr k = false)
    (x : AccessibilityNode) :
    optTake (capRemaining mr k) [x] = [x] := by
  rw [capReached_eq] at hb
  rw [capRemaining]
  cases heff : effCap mr with
  | none => rfl
  | some m =>
    rw [heff] at hb
    simp only [decide_eq_false_iff_not, Nat.not_le] at hb
    rw [optTake]
    have h1 : m - k = (m - k - 1) + 1 := by omega
    rw [h1, List.take_succ_cons, List.take_nil]

/-- When collecting A did not reach the cap, continuing with B from there is
the same as capping A ++ B at once. -/
theorem capAppend_assoc (mr : Option Nat) (acc A B : List AccessibilityNode)
    (hb : capReached mr acc.length = false)
    (h1 : capReached mr (acc ++ optTake (capRemaining mr acc.length) A).length = false) :
    (acc ++ optTake (capRemaining mr acc.length) A) ++
        optTake (capRemaining mr (acc ++ optTake (capRemaining mr acc.length) A).length) B =
      acc ++ optTake (capRemaining mr acc.length) (A ++ B) := by
  rw [capReached_eq] at hb h1
  cases heff : effCap mr with
  | none =>
    simp only [capRemaining, heff, optTake, List.append_assoc]
  | some m =>
    rw [heff] at hb h1
    simp only [decide_eq_false_iff_not, Nat.not_le] at hb h1
    simp only [capRemaining, heff, optTake] at h1 ⊢
    simp only [List.length_append, List.length_take] at h1
    have hAlt : A.length < m - acc.length := by omega
    have hAfull : A.take (m - acc.length) = A := List.take_of_length_le (by omega)
    rw [List.take_append_eq_append_take, hAfull]
    have harith : m - (acc ++ A).length = m - acc.length - A.length := by
      simp only [List.length_append]
      omega
    rw [harith, List.append_assoc]

/-- Once collecting A reached the cap, nothing of B is taken. -/
theorem capAppend_stop (mr : Option Nat) (acc A B : List AccessibilityNode)
    (hb : capReached mr acc.length = false)
    (h1 : capReached mr (acc ++ optTake (capRemaining mr acc.length) A).length = true) :
    acc ++ optTake (capRemaining mr acc.length) A =
      acc ++ optTake (capRemaining mr acc.length) (A ++ B) := by
  rw [capReached_eq] at hb h1
  cases heff : effCap mr with
  | none => rw [heff] at h1; simp at h1
  | some m =>
    rw [heff] at hb h1
    simp only [decide_eq_false_iff_not, Nat.not_le] at hb
    simp only [decide_eq_true_eq] at h1
    simp only [capRemaining, heff, optTake] at h1 ⊢
    simp only [List.length_append, List.length_take] at h1
    rw [List.take_append_eq_append_take]
    have h0 : m - acc.length - A.length = 0 := by omega
    rw [h0, List.take_zero, List.append_nil]

mutual
/-- In all mode (for a filter whose regex, if any, compiles), visiting one
subtree from a below-cap accumulator collects the copies of the matching
nodes of the subtree's pre-order traversal, truncated to the remaining
budget, and reports a stop exactly when the cap is reached. -/
theorem visit_all_eq (f : FindFilter) (hm : f.mode = .all) (hc : compileOk f) :
    ∀ (n : AccessibilityNode) (acc : List AccessibilityNode),
      capReached f.maxResults acc.length = false →
      visit f n acc =
        .ok (acc ++ optTake (capRemaining f.maxResults acc.length) (matchedPreN f n),
          capReached f.maxResults
            (acc ++ optTake (capRemaining f.maxResults acc.length) (matchedPreN f n)).length)
  | .mk r t a cs raw, acc, hb => by
    rw [visit, nodeMatches_eq_ok hc]
    simp only [Bind.bind, Except.bind]
    cases hnm : nodeMatchesB f (.mk r t a cs raw) with
    | false =>
      simp only [hnm, Bool.false_eq_true, if_false]
      rw [matchedPreN_nomatch f r t a cs raw hnm]
      exact visitChildren_all_eq f hm hc cs acc hb
    | true =>
      simp only [hnm, if_true, hm]
      rw [matchedPreN_match f r t a cs raw hnm]
      simp only [show decide (FilterMode.all = FilterMode.first) = false from rfl,
        Bool.false_or]
      cases h1 : capReached f.maxResults (acc ++ [mkCopy f (.mk r t a cs raw)]).length with
      | true =>
        rw [if_pos rfl]
        have hstop := capAppend_stop f.maxResults acc [mkCopy f (.mk r t a cs raw)]
          (matchedPre f cs) hb
          (by rw [optTake_singleton f.maxResults acc.length hb]; exact h1)
        rw [optTake_singleton f.maxResults acc.length hb] at hstop
        rw [List.singleton_append] at hstop
        rw [← hstop, h1]
        rfl
      | false =>
        rw [if_neg (by simp)]
        rw [visitChildren_all_eq f hm hc cs (acc ++ [mkCopy f (.mk r t a cs raw)]) h1]
        have hassoc := capAppend_assoc f.maxResults acc [mkCopy f (.mk r t a cs raw)]
          (matchedPre f cs) hb
          (by rw [optTake_singleton f.maxResults acc.length hb]; exact h1)
        rw [optTake_singleton f.maxResults acc.length hb] at hassoc
        rw [List.singleton_append] at hassoc
        rw [hassoc]
termination_by structural n => n

/-- In all mode, visiting a sibling list from a below-cap accumulator
collects the capped matching copies of the forest's pre-order traversal. -/
theorem visitChildren_all_eq (f : FindFilter) (hm : f.mode = .all) (hc : compileOk f) :
    ∀ (l : List AccessibilityNode) (acc : List AccessibilityNode),
      capReached f.maxResults acc.length = false →
      visitChildren f l acc =
        .ok (acc ++ optTake (capRemaining f.maxResults acc.length) (matchedPre f l),
          capReached f.maxResults
            (acc ++ optTake (capRemaining f.maxResults acc.length) (matchedPre f l)).length)
  | [], acc, hb => by
    rw [visitChildren, matchedPre_nil, optTake_nil, List.append_nil, hb]
    rfl
  | n :: rest, acc, hb => by
    rw [visitChildren, visit_all_eq f hm hc n acc hb]
    simp only [Bind.bind, Except.bind]
    rw [matchedPre_cons]
    cases h1 : capReached f.maxResults
        (acc ++ optTake (capRemaining f.maxResults acc.length) (matchedPreN f n)).length with
    | true =>
      rw [if_pos rfl]
      have hstop := capAppend_stop f.maxResults acc (matchedPreN f n) (matchedPre f rest) hb h1
      rw [← hstop, h1]
      rfl
    | false =>
      rw [if_neg (by simp)]
      rw [visitChildren_all_eq f hm hc rest
        (acc ++ optTake (capRemaining f.maxResults acc.length) (matchedPreN f n)) h1]
      have hassoc := capAppend_assoc f.maxResults acc (matchedPreN f n) (matchedPre f rest) hb h1
      rw [hassoc]
termination_by structural l => l
end

mutual
/-- In first mode, visiting one subtree appends at most the first matching
copy of the subtree's pre-order traversal and stops globally as soon as one
match is recorded. -/
theorem visit_first_eq (f : FindFilter) (hm : f.mode = .first) (hc : compileOk f) :
    ∀ (n : AccessibilityNode) (acc : List AccessibilityNode),
      visit f n acc =
        .ok (acc ++ (matchedPreN f n).take 1, !(matchedPreN f n).isEmpty)
  | .mk r t a cs raw, acc => by
    rw [visit, nodeMatches_eq_ok hc]
    simp only [Bind.bind, Except.bind]
    cases hnm : nodeMatchesB f (.mk r t a cs raw) with
    | false =>
      simp only [hnm, Bool.false_eq_true, if_false]
      rw [matchedPreN_nomatch f r t a cs raw hnm]
      exact visitChildren_first_eq f hm hc cs acc
    | true =>
      simp only [hnm, if_true, hm]
      rw [matchedPreN_match f r t a cs raw hnm]
      rw [if_pos (by simp)]
      rw [List.take_succ_cons, List.take_zero]
      rfl
termination_by structural n => n

/-- In first mode, visiting a sibling list appends at most the first matching
copy of the forest's pre-order traversal. -/
theorem visitChildren_first_eq (f : FindFilter) (hm : f.mode = .first) (hc : compileOk f) :
    ∀ (l : List AccessibilityNode) (acc : List AccessibilityNode),
      visitChildren f l acc =
        .ok (acc ++ (matchedPre f l).take 1, !(matchedPre f l).isEmpty)
  | [], acc => by
    rw [visitChildren, matchedPre_nil]
    simp [pure, Except.pure]
  | n :: rest, acc => by
    rw [visitChildren, visit_first_eq f hm hc n acc]
    simp only [Bind.bind, Except.bind]
    rw [matchedPre_cons]
    cases hA : matchedPreN f n with
    | nil =>
      simp only [List.take_nil, List.isEmpty_nil, Bool.not_true, Bool.false_eq_true, if_false,
        List.append_nil, List.nil_append]
      exact visitChildren_first_eq f hm hc rest acc
    | cons x xs =>
      simp only [List.take_succ_cons, List.take_zero, List.isEmpty_cons, Bool.not_false, if_true,
        List.cons_append]
      rfl
termination_by structural l => l
end

/-- findMatches in all mode is the capped list of matching copies in
pre-order. -/
theorem findMatches_all (f : FindFilter) (hm : f.mode = .all) (hc : compileOk f)
    (ns : List AccessibilityNode) :
    findMatches ns f = .ok (optTake (effCap f.maxResults) (matchedPre f ns)) := by
  rw [findMatches, visitChildren_all_eq f hm hc ns [] (capReached_zero f.maxResults)]
  simp only [Bind.bind, Except.bind, List.nil_append, List.length_nil]
  have h : capRemaining f.maxResults 0 = effCap f.maxResults := by
    rw [capRemaining]
    cases h : effCap f.maxResults <;> simp
  rw [h]
  rfl

/-- findMatches in first mode is the first matching copy in pre-order, if
any. -/
theorem findMatches_first (f : FindFilter) (hm : f.mode = .first) (hc : compileOk f)
    (ns : List AccessibilityNode) :
    findMatches ns f = .ok ((matchedPre f ns).take 1) := by
  rw [findMatches, visitChildren_first_eq f hm hc ns []]
  simp only [Bind.bind, Except.bind, List.nil_append]
  rfl

/-- For a filter whose regex (if any) compiles, findMatches never throws. -/
theorem findMatches_ok (f : FindFilter) (hc : compileOk f) (ns : List AccessibilityNode) :
    ∃ l, findMatches ns f = .ok l := by
  cases hm : f.mode with
  | first => exact ⟨_, findMatches_first f hm hc ns⟩
  | all => exact ⟨_, findMatches_all f hm hc ns⟩

/-! Length bounds on the JSON serialization, for the size-budget claim. -/

theorem joinSep_length_ge (sep : List Char) :
    ∀ l : List (List Char), (l.map List.length).sum ≤ (joinSep sep l).length
  | [] => by simp [joinSep]
  | [x] => by simp [joinSep]
  | x :: y :: rest => by
    rw [joinSep]
    simp only [List.map_cons, List.sum_cons, List.length_append]
    have ih := joinSep_length_ge sep (y :: rest)
    simp only [List.map_cons, List.sum_cons] at ih
    omega

theorem jField_raw_le (d : Nat) (v : List Char) :
    17 ≤ (jField d ("rawDescriptor", v)).length := by
  rw [jField]
  simp only [List.length_append, List.length_cons, List.length_nil]
  have h15 : (jsonQuote "rawDescriptor").length = 15 := by decide
  omega

theorem jObject_length_ge_field (d : Nat) (fields : List (String × List Char))
    (kv : String × List Char) (hmem : kv ∈ fields) :
    (jField (d + 1) kv).length ≤ (jObject d fields).length := by
  cases fields with
  | nil => simp at hmem
  | cons f0 rest =>
    simp only [jObject, List.length_append]
    have hj := joinSep_length_ge [',', '\n'] ((f0 :: rest).map (jField (d + 1)))
    have hs : (jField (d + 1) kv).length ≤
        (((f0 :: rest).map (jField (d + 1))).map List.length).sum := by
      apply List.single_le_sum (fun x _ => Nat.zero_le x)
      exact List.mem_map_of_mem _ (List.mem_map_of_mem _ hmem)
    omega

theorem jNode_length_ge (d : Nat) (n : AccessibilityNode) : 17 ≤ (jNode d n).length := by
  cases n with
  | mk r t a cs raw =>
    rw [jNode]
    have hmem : ("rawDescriptor", jsonQuote raw) ∈
        jNodeFields d r t a (jArray (d + 1) (jNodeList (d + 2) cs)) raw := by
      simp only [jNodeFields]
      cases t <;> simp
    have h1 := jObject_length_ge_field d _ _ hmem
    have h2 := jField_raw_le (d + 1) (jsonQuote raw)
    omega

theorem jNodeList_eq_map (d : Nat) : ∀ l, jNodeList d l = l.map (jNode d)
  | [] => by rw [jNodeList]; rfl
  | n :: rest => by rw [jNodeList, jNodeList_eq_map d rest]; rfl

theorem mul_length_le_sum_map {α : Type} (c : Nat) (g : α → Nat) :
    ∀ l : List α, (∀ x ∈ l, c ≤ g x) → c * l.length ≤ (l.map g).sum
  | [], _ => by simp
  | x :: rest, h => by
    simp only [List.map_cons, List.sum_cons, List.length_cons]
    have ih := mul_length_le_sum_map c g rest (fun y hy => h y (List.mem_cons_of_mem _ hy))
    have hx := h x (List.mem_cons_self _ _)
    have : c * (rest.length + 1) = c * rest.length + c := by ring
    omega

/-- A nonempty pretty-printed array is at least as long as the sum of its
item lengths. -/
theorem jArray_length_ge (items : List (List Char)) (hb : ∀ x ∈ items, 17 ≤ x.length) :
    17 * items.length ≤ (jArray 0 items).length := by
  cases items with
  | nil => simp [jArray]
  | cons x xs =>
    simp only [jArray, List.length_append, List.length_cons, List.length_nil, Nat.zero_add]
    have hj := joinSep_length_ge [',', '\n'] ((x :: xs).map (fun it => jIndent 1 ++ it))
    have hs := mul_length_le_sum_map 17 List.length ((x :: xs).map (fun it => jIndent 1 ++ it))
      (by intro y hy
          obtain ⟨it, hit, rfl⟩ := List.mem_map.mp hy
          simp only [List.length_append]
          have := hb it hit
          omega)
    simp only [List.length_map] at hs
    simp only [List.map_cons, List.length_cons] at hj hs ⊢
    omega

/-- Every serialized match contributes at least 17 characters, so the
serialized list of n matches has at least 17 n characters. -/
theorem stringifyMatches_length_ge (ms : List AccessibilityNode) :
    17 * ms.length ≤ (stringifyMatches ms).length := by
  show 17 * ms.length ≤ (jArray 0 (jNodeList 1 ms)).length
  rw [jNodeList_eq_map]
  have h := jArray_length_ge (ms.map (jNode 1))
    (by intro x hx
        obtain ⟨m, _, rfl⟩ := List.mem_map.mp hx
        exact jNode_length_ge 1 m)
  simp only [List.length_map] at h
  exact h

/-! Characterization of the tool's execute function. -/

/-- A missing variable fails with the not-found reason and leaves the store
unchanged. -/
theorem execute_missing_var (d : String → Except String DecodedValue)
    (st : List (String × String)) (inp : ToolInput)
    (h : getVariable st inp.varName = none) :
    snapshotGetAndFilterExecute d st inp =
      .ok (⟨false, 0, none, some (varNotFoundReason inp.varName)⟩, st) := by
  rw [snapshotGetAndFilterExecute, h]

/-- An empty (falsy) variable fails with the same not-found reason. -/
theorem execute_empty_var (d : String → Except String DecodedValue)
    (st : List (String × String)) (inp : ToolInput)
    (h : getVariable st inp.varName = some "") :
    snapshotGetAndFilterExecute d st inp =
      .ok (⟨false, 0, none, some (varNotFoundReason inp.varName)⟩, st) := by
  simp only [snapshotGetAndFilterExecute, h]
  rfl

/-- A decode failure is caught and reported with the decoder's message. -/
theorem execute_decode_error (d : String → Except String DecodedValue)
    (st : List (String × String)) (inp : ToolInput) (raw msg : String)
    (hraw : getVariable st inp.varName = some raw) (hne : raw ≠ "")
    (hd : d raw = .error msg) :
    snapshotGetAndFilterExecute d st inp =
      .ok (⟨false, 0, none, some ("Failed to parse YAML: " ++ msg)⟩, st) := by
  simp only [snapshotGetAndFilterExecute, hraw]
  rw [if_neg hne, hd]

/-- An oversized serialization fails with the pre-truncation count and the
too-large reason, and leaves the store unchanged. -/
theorem execute_too_large (d : String → Except String DecodedValue)
    (st : List (String × String)) (inp : ToolInput) (raw : String) (v : DecodedValue)
    (ms : List AccessibilityNode)
    (hraw : getVariable st inp.varName = some raw) (hne : raw ≠ "")
    (hd : d raw = .ok v)
    (hf : findMatches (buildNodes v) (filterOf inp) = .ok ms)
    (hbig : MAX_JSON_CHARS < (stringifyMatches ms).length) :
    snapshotGetAndFilterExecute d st inp =
      .ok (⟨false, ms.length, none, some (tooLargeReason (stringifyMatches ms).length)⟩,
        st) := by
  simp only [snapshotGetAndFilterExecute, hraw]
  rw [if_neg hne, hd]
  simp only [Bind.bind, Except.bind, hf]
  rw [if_pos hbig]
  rfl

/-- A within-budget serialization succeeds with the serialized payload, and
stores it under a truthy storeInVariable name. -/
theorem execute_success (d : String → Except String DecodedValue)
    (st : List (String × String)) (inp : ToolInput) (raw : String) (v : DecodedValue)
    (ms : List AccessibilityNode)
    (hraw : getVariable st inp.varName = some raw) (hne : raw ≠ "")
    (hd : d raw = .ok v)
    (hf : findMatches (buildNodes v) (filterOf inp) = .ok ms)
    (hsmall : ¬ MAX_JSON_CHARS < (stringifyMatches ms).length) :
    snapshotGetAndFilterExecute d st inp =
      .ok (⟨true, ms.length, some (stringifyMatches ms), none⟩,
        match inp.storeInVariable with
        | some nm => if nm = "" then st else setVariable st nm (stringifyMatches ms)
        | none => st) := by
  simp only [snapshotGetAndFilterExecute, hraw]
  rw [if_neg hne, hd]
  simp only [Bind.bind, Except.bind, hf]
  rw [if_neg hsmall]
  rfl

/-- Every outcome of the tool is either a thrown error, a structured failure
that leaves the store unchanged and carries no payload, or a success whose
payload is within the budget and is exactly what a truthy storeInVariable
stores. -/
theorem execute_spec (d : String → Except String DecodedValue)
    (st : List (String × String)) (inp : ToolInput) :
    snapshotGetAndFilterExecute d st inp = .error () ∨
    (∃ res st2, snapshotGetAndFilterExecute d st inp = .ok (res, st2) ∧
      ((res.success = false ∧ st2 = st ∧ res.json = none) ∨
       (res.success = true ∧ ∃ j, res.json = some j ∧ j.length ≤ MAX_JSON_CHARS ∧
         st2 = (match inp.storeInVariable with
                | some nm => if nm = "" then st else setVariable st nm j
                | none => st)))) := by
  cases hv : getVariable st inp.varName with
  | none =>
    right
    exact ⟨_, _, execute_missing_var d st inp hv, Or.inl ⟨rfl, rfl, rfl⟩⟩
  | some raw =>
    by_cases hne : raw = ""
    · right
      subst hne
      exact ⟨_, _, execute_empty_var d st inp hv, Or.inl ⟨rfl, rfl, rfl⟩⟩
    · cases hd : d raw with
      | error msg =>
        right
        exact ⟨_, _, execute_decode_error d st inp raw msg hv hne hd, Or.inl ⟨rfl, rfl, rfl⟩⟩
      | ok v =>
        cases hf : findMatches (buildNodes v) (filterOf inp) with
        | error e =>
          left
          simp only [snapshotGetAndFilterExecute, hv]
          rw [if_neg hne, hd]
          simp only [Bind.bind, Except.bind, hf]
        | ok ms =>
          right
          by_cases hbig : MAX_JSON_CHARS < (stringifyMatches ms).length
          · exact ⟨_, _, execute_too_large d st inp raw v ms hv hne hd hf hbig,
              Or.inl ⟨rfl, rfl, rfl⟩⟩
          · refine ⟨_, _, execute_success d st inp raw v ms hv hne hd hf hbig,
              Or.inr ⟨rfl, stringifyMatches ms, rfl, by omega, rfl⟩⟩

/-- With a compiling filter, the tool never throws. -/
theorem execute_ok_of_compileOk (d : String → Except String DecodedValue)
    (st : List (String × String)) (inp : ToolInput)
    (hc : compileOk (filterOf inp)) :
    ∃ r, snapshotGetAndFilterExecute d st inp = .ok r := by
  cases hv : getVariable st inp.varName with
  | none => exact ⟨_, execute_missing_var d st inp hv⟩
  | some raw =>
    by_cases hne : raw = ""
    · subst hne
      exact ⟨_, execute_empty_var d st inp hv⟩
    · cases hd : d raw with
      | error msg => exact ⟨_, execute_decode_error d st inp raw msg hv hne hd⟩
      | ok v =>
        obtain ⟨ms, hf⟩ := findMatches_ok (filterOf inp) hc (buildNodes v)
        by_cases hbig : MAX_JSON_CHARS < (stringifyMatches ms).length
        · exact ⟨_, execute_too_large d st inp raw v ms hv hne hd hf hbig⟩
        · exact ⟨_, execute_success d st inp raw v ms hv hne hd hf hbig⟩

/-! The 2,000-row size-budget scenario. -/

theorem takeWhile_row (s : String) :
    ("row " ++ s).data.takeWhile isWordChar = ['r', 'o', 'w'] := by
  rw [String.data_append]
  show ('r' :: 'o' :: 'w' :: ' ' :: s.data).takeWhile isWordChar = ['r', 'o', 'w']
  rw [List.takeWhile_cons, if_pos (by decide), List.takeWhile_cons, if_pos (by decide),
    List.takeWhile_cons, if_pos (by decide), List.takeWhile_cons, if_neg (by decide)]

/-- Any descriptor line starting with "row " parses to the role "row". -/
theorem parseDescriptor_row_role (s : String) :
    (parseDescriptor ("row " ++ s)).role = "row" := by
  simp only [parseDescriptor, takeWhile_row]
  rfl

theorem buildNodesList_map_str (g : Nat → String) :
    ∀ l : List Nat,
      buildNodesList (l.map (fun i => DecodedValue.str (g i))) =
        l.map (fun i => nodeOfLine (g i) [])
  | [] => by rw [List.map_nil, buildNodesList, List.map_nil]
  | i :: rest => by
    rw [List.map_cons, buildNodesList, buildNodes, buildNodesList_map_str g rest, List.map_cons]
    rfl

theorem preorder_leaf (r : String) (t : Option String) (a : List (String × String))
    (raw : String) : preorder (.mk r t a [] raw) = [.mk r t a [] raw] := by
  rw [preorder, preorderList]

theorem preorderList_leaves (g : Nat → String) :
    ∀ l : List Nat,
      preorderList (l.map (fun i => nodeOfLine (g i) [])) =
        l.map (fun i => nodeOfLine (g i) [])
  | [] => by rw [List.map_nil, preorderList]
  | i :: rest => by
    rw [List.map_cons, preorderList, preorderList_leaves g rest]
    rw [nodeOfLine, preorder_leaf]
    rfl

theorem c1_leaf_matches (i : Nat) :
    nodeMatchesB (filterOf c1Input) (nodeOfLine (c1Line i) []) = true := by
  rw [nodeMatchesB]
  have hr : (nodeOfLine (c1Line i) []).role = "row" := by
    rw [nodeOfLine, AccessibilityNode.role, c1Line]
    exact parseDescriptor_row_role _
  rw [hr]
  rw [show (filterOf c1Input).text = none from rfl,
    show (filterOf c1Input).attributes = none from rfl]
  rw [show rolePass (filterOf c1Input) "row" = true from by decide]
  rfl

theorem c1_matchedPre :
    matchedPre (filterOf c1Input) (buildNodes c1Val) =
      ((List.range 2000).map (fun i => nodeOfLine (c1Line i) [])).map
        (mkCopy (filterOf c1Input)) := by
  have hbuild : buildNodes c1Val =
      [nodeOfLine "table" ((List.range 2000).map (fun i => nodeOfLine (c1Line i) []))] := by
    rw [c1Val, c1Rows, buildNodes, if_neg (by decide)]
    rw [buildNodesList_map_str c1Line (List.range 2000)]
  rw [hbuild]
  have htable : nodeMatchesB (filterOf c1Input)
      (nodeOfLine "table" ((List.range 2000).map (fun i => nodeOfLine (c1Line i) []))) =
      false := by
    rw [nodeMatchesB]
    have hr : (nodeOfLine "table" ((List.range 2000).map
        (fun i => nodeOfLine (c1Line i) []))).role = "table" := by
      rw [nodeOfLine, AccessibilityNode.role]
      decide
    rw [hr, show rolePass (filterOf c1Input) "table" = false from by decide]
    rfl
  rw [matchedPre, preorderList, preorderList, List.append_nil]
  rw [show nodeOfLine "table" ((List.range 2000).map (fun i => nodeOfLine (c1Line i) [])) =
    AccessibilityNode.mk (parseDescriptor "table").role (some (parseDescriptor "table").text)
      (parseDescriptor "table").attributes
      ((List.range 2000).map (fun i => nodeOfLine (c1Line i) [])) "table" from rfl]
  rw [preorder]
  rw [List.filter_cons_of_neg (by
    have := htable
    rw [nodeOfLine] at this
    simp [this])]
  rw [preorderList_leaves c1Line (List.range 2000)]
  rw [List.filter_eq_self.mpr (by
    intro n hn
    obtain ⟨i, _, rfl⟩ := List.mem_map.mp hn
    exact c1_leaf_matches i)]

theorem c1_findMatches :
    ∃ ms, findMatches (buildNodes c1Val) (filterOf c1Input) = .ok ms ∧
      ms.length = 2000 ∧ MAX_JSON_CHARS < (stringifyMatches ms).length := by
  have hc : compileOk (filterOf c1Input) := by
    rw [compileOk]
    exact trivial
  have hall := findMatches_all (filterOf c1Input) rfl hc (buildNodes c1Val)
  have hlen : (optTake (effCap (filterOf c1Input).maxResults)
      (matchedPre (filterOf c1Input) (buildNodes c1Val))).length = 2000 := by
    rw [show effCap (filterOf c1Input).maxResults = none from rfl, optTake, c1_matchedPre]
    simp [List.length_map, List.length_range]
  refine ⟨optTake (effCap (filterOf c1Input).maxResults)
    (matchedPre (filterOf c1Input) (buildNodes c1Val)), hall, hlen, ?_⟩
  have hge := stringifyMatches_length_ge (optTake (effCap (filterOf c1Input).maxResults)
    (matchedPre (filterOf c1Input) (buildNodes c1Val)))
  rw [hlen] at hge
  rw [MAX_JSON_CHARS]
  omega

/-! The descriptor parser against the specification wording. -/

theorem drop_len_succ_append (pre : List Char) (c : Char) (post : List Char) :
    (pre ++ c :: post).drop (pre.length + 1) = post := by
  induction pre with
  | nil => simp
  | cons x xs ih => simp [ih]

theorem parseAttrSeg_eq_spec (seg : List Char) : parseAttrSeg seg = splitAttrSegSpec seg := by
  rw [parseAttrSeg, splitAttrSegSpec, List.span_eq_take_drop]
  cases hdw : seg.dropWhile (fun d => !(d = '=')) with
  | nil =>
    have hfull : seg.takeWhile (fun d => !(d = '=')) = seg := by
      have := List.takeWhile_append_dropWhile (p := fun d => !(d = '=')) (l := seg)
      rw [hdw, List.append_nil] at this
      exact this
    rw [if_pos (by rw [hfull])]
  | cons c post =>
    have hsplit := List.takeWhile_append_dropWhile (p := fun d => !(d = '=')) (l := seg)
    rw [hdw] at hsplit
    have hlen : (seg.takeWhile (fun d => !(d = '='))).length ≠ seg.length := by
      intro hcontra
      have := congrArg List.length hsplit
      simp only [List.length_append, List.length_cons] at this
      omega
    rw [if_neg hlen]
    have hdrop : seg.drop ((seg.takeWhile (fun d => !(d = '='))).length + 1) = post := by
      set pre := seg.takeWhile (fun d => !(d = '=')) with hpre
      rw [← hsplit]
      exact drop_len_succ_append pre c post
    rw [hdrop]

theorem parseDescriptor_eq_spec (s : String) :
    parseDescriptor s = parseDescriptorSpec s := by
  rw [parseDescriptor, parseDescriptorSpec, List.span_eq_take_drop]
  have hfold : (fun (m : List (String × String)) (seg : List Char) =>
      setEntry m (parseAttrSeg seg).1 (parseAttrSeg seg).2) =
      (fun m seg => setEntry m (splitAttrSegSpec seg).1 (splitAttrSegSpec seg).2) := by
    funext m seg
    rw [parseAttrSeg_eq_spec]
  rw [hfold]
  by_cases hrun : s.data.takeWhile isWordChar = []
  · rw [if_pos (by rw [hrun]; rfl), if_pos hrun]
  · rw [if_neg (by rw [List.isEmpty_iff]; exact hrun), if_neg hrun]

/-! Presence of the text field on every built node. -/

mutual
theorem buildNodes_text_present : ∀ v : DecodedValue,
    ∀ n ∈ preorderList (buildNodes v), n.text.isSome = true
  | .str s => by
    intro n hn
    rw [show preorderList (buildNodes (.str s)) =
      nodeOfLine s [] :: ([] ++ ([] : List AccessibilityNode)) from rfl] at hn
    rw [List.mem_cons] at hn
    rcases hn with hn | hn
    · subst hn; rfl
    · exact absurd hn (List.not_mem_nil n)
  | .arr items => by
    intro n hn
    rw [show buildNodes (.arr items) = buildNodesList items from rfl] at hn
    exact buildNodesList_text_present items n hn
  | .obj [] => by
    intro n hn
    exact absurd hn (List.not_mem_nil n)
  | .obj [(k, .str s)] => by
    intro n hn
    exact absurd hn (List.not_mem_nil n)
  | .obj [(k, .arr items)] => by
    intro n hn
    rw [buildNodes] at hn
    by_cases hsl : startsWithSlash k
    · rw [if_pos hsl] at hn
      exact absurd hn (List.not_mem_nil n)
    · rw [if_neg hsl] at hn
      rw [show preorderList [nodeOfLine k (buildNodesList items)] =
        preorder (nodeOfLine k (buildNodesList items)) ++ ([] : List AccessibilityNode)
        from rfl, List.append_nil] at hn
      rw [show preorder (nodeOfLine k (buildNodesList items)) =
        nodeOfLine k (buildNodesList items) :: preorderList (buildNodesList items)
        from rfl] at hn
      rw [List.mem_cons] at hn
      rcases hn with hn | hn
      · subst hn; rfl
      · exact buildNodesList_text_present items n hn
  | .obj [(k, .obj fs)] => by
    intro n hn
    exact absurd hn (List.not_mem_nil n)
  | .obj [(k, .scalar)] => by
    intro n hn
    exact absurd hn (List.not_mem_nil n)
  | .obj ((k1, v1) :: (k2, v2) :: rest) => by
    intro n hn
    have hz : buildNodes (.obj ((k1, v1) :: (k2, v2) :: rest)) = [] := by
      cases v1 <;> rfl
    rw [hz] at hn
    exact absurd hn (List.not_mem_nil n)
  | .scalar => by
    intro n hn
    exact absurd hn (List.not_mem_nil n)
termination_by structural v => v

theorem buildNodesList_text_present : ∀ items : List DecodedValue,
    ∀ n ∈ preorderList (buildNodesList items), n.text.isSome = true
  | [] => by
    intro n hn
    exact absurd hn (List.not_mem_nil n)
  | v :: rest => by
    intro n hn
    rw [buildNodesList, preorderList_append, List.mem_append] at hn
    rcases hn with hn | hn
    · exact buildNodes_text_present v n hn
    · exact buildNodesList_text_present rest n hn
termination_by structural l => l
end

/-! Reason-string containment and remaining helper lemmas. -/

theorem infix_append_right_of (l b : List Char) (a : List Char) (h : l <:+: b) :
    l <:+: a ++ b := by
  obtain ⟨s, t, rfl⟩ := h
  exact ⟨a ++ s, t, by simp [List.append_assoc]⟩

theorem tooLargeReason_marker (len : Nat) :
    strContains (tooLargeReason len) "Filtered result too large" = true := by
  apply strContains_of_infix
  rw [tooLargeReason]
  simp only [String.data_append, List.append_assoc]
  have hp : "Filtered result too large".data <+: "Filtered result too large (".data :=
    ⟨[' ', '('], by decide⟩
  exact (hp.trans (List.prefix_append _ _)).isInfix

theorem tooLargeReason_len (len : Nat) :
    strContains (tooLargeReason len) (toString len) = true := by
  apply strContains_of_infix
  rw [tooLargeReason]
  simp only [String.data_append, List.append_assoc]
  exact List.infix_append' _ _ _

theorem tooLargeReason_max (len : Nat) :
    strContains (tooLargeReason len) (toString MAX_JSON_CHARS) = true := by
  apply strContains_of_infix
  rw [tooLargeReason]
  simp only [String.data_append, List.append_assoc]
  apply infix_append_right_of _ _ _
  apply infix_append_right_of _ _ _
  exact List.infix_append' _ _ _

theorem decode_error_reason_contains (msg : String) :
    strContains ("Failed to parse YAML: " ++ msg) msg = true := by
  apply strContains_of_infix
  simp only [String.data_append]
  exact ⟨"Failed to parse YAML: ".data, [], by simp⟩

theorem effCap_of_ne_zero (mr : Option Nat) (h : mr ≠ some 0) : effCap mr = mr := by
  cases mr with
  | none => rfl
  | some m =>
    rw [effCap, if_neg (fun h0 => h (by rw [h0]))]

theorem effCap_some_pos (mr : Option Nat) (m : Nat) (h : effCap mr = some m) : 0 < m := by
  cases mr with
  | none => simp [effCap] at h
  | some m0 =>
    rw [effCap] at h
    by_cases h0 : m0 = 0
    · rw [if_pos h0] at h; cases h
    · rw [if_neg h0] at h
      injection h with h
      omega

/-- Every returned match is the recorded copy of a matching node of the
pre-order traversal. -/
theorem findMatches_mem (f : FindFilter) (ns : List AccessibilityNode)
    (res : List AccessibilityNode) (x : AccessibilityNode) (hc : compileOk f)
    (hf : findMatches ns f = .ok res) (hx : x ∈ res) :
    ∃ n, n ∈ preorderList ns ∧ nodeMatchesB f n = true ∧ x = mkCopy f n := by
  have hx2 : x ∈ matchedPre f ns := by
    cases hm : f.mode with
    | all =>
      rw [findMatches_all f hm hc ns] at hf
      injection hf with hf
      subst hf
      cases he : effCap f.maxResults with
      | none => rw [he, optTake] at hx; exact hx
      | some m => rw [he, optTake] at hx; exact List.take_subset m _ hx
    | first =>
      rw [findMatches_first f hm hc ns] at hf
      injection hf with hf
      subst hf
      exact List.take_subset 1 _ hx
  obtain ⟨n, hn, rfl⟩ := List.mem_map.mp hx2
  rw [List.mem_filter] at hn
  exact ⟨n, hn.1, hn.2, rfl⟩

/-- buildNodes on a single-field object, phrased through isDescriptorObject. -/
theorem buildNodes_obj_single (k : String) (v : DecodedValue) :
    buildNodes (.obj [(k, v)]) =
      (if isDescriptorObject [(k, v)] then
        [nodeOfLine k (match v with | .arr items => buildNodesList items | _ => [])]
      else []) := by
  cases v with
  | arr items =>
    rw [buildNodes, isDescriptorObject]
    by_cases h : startsWithSlash k
    · rw [if_pos h, if_neg (by simp [h])]
    · rw [if_neg h, if_pos (by simp [h])]
  | str s => simp [isDescriptorObject]; rfl
  | obj fs => simp [isDescriptorObject]; rfl
  | scalar => simp [isDescriptorObject]; rfl

/-- buildNodes on an object with any other number of fields is empty. -/
theorem buildNodes_obj_multi (fields : List (String × DecodedValue))
    (h : fields.length ≠ 1) : buildNodes (.obj fields) = [] := by
  match fields, h with
  | [], _ => rfl
  | [x], h => exact absurd rfl h
  | (k1, v1) :: (k2, v2) :: rest, _ => cases v1 <;> rfl

/-! The claims. -/

/-- C1: size-budget enforcement.  On every successful invocation the
returned payload is at most 30,000 characters.  Whenever the JSON
serialization of the collected matches exceeds 30,000 characters, the result
is a failure whose count is the number of matches found before truncation
and whose reason contains "Filtered result too large" together with the
actual size and the limit.  On the synthetic source of 2,000 sibling
row-"ItemN" nodes filtered by role "row" in all mode, the result is a
failure with count 2000. -/
theorem claim_C1 :
    (∀ (d : String → Except String DecodedValue) (st : List (String × String))
      (inp : ToolInput) (res : ToolResult) (st2 : List (String × String)),
      snapshotGetAndFilterExecute d st inp = .ok (res, st2) → res.success = true →
      ∃ j, res.json = some j ∧ j.length ≤ MAX_JSON_CHARS) ∧
    (∀ (d : String → Except String DecodedValue) (st : List (String × String))
      (inp : ToolInput) (raw : String) (v : DecodedValue) (ms : List AccessibilityNode),
      getVariable st inp.varName = some raw → raw ≠ "" → d raw = .ok v →
      findMatches (buildNodes v) (filterOf inp) = .ok ms →
      MAX_JSON_CHARS < (stringifyMatches ms).length →
      snapshotGetAndFilterExecute d st inp =
        .ok (⟨false, ms.length, none,
          some (tooLargeReason (stringifyMatches ms).length)⟩, st) ∧
      strContains (tooLargeReason (stringifyMatches ms).length)
        "Filtered result too large" = true ∧
      strContains (tooLargeReason (stringifyMatches ms).length)
        (toString (stringifyMatches ms).length) = true ∧
      strContains (tooLargeReason (stringifyMatches ms).length)
        (toString MAX_JSON_CHARS) = true) ∧
    (∃ res : ToolResult,
      snapshotGetAndFilterExecute c1Decode c1Store c1Input = .ok (res, c1Store) ∧
      res.success = false ∧ res.count = 2000 ∧
      ∃ rsn, res.reason = some rsn ∧ strContains rsn "Filtered result too large" = true) := by
  refine ⟨?_, ?_, ?_⟩
  · intro d st inp res st2 hok hs
    rcases execute_spec d st inp with herr | ⟨res2, st3, hok2, hcase⟩
    · rw [herr] at hok; cases hok
    · rw [hok2] at hok
      injection hok with hok
      injection hok with h1 h2
      subst h1
      subst h2
      rcases hcase with ⟨hfs, _, _⟩ | ⟨_, j, hj, hle, _⟩
      · rw [hfs] at hs; cases hs
      · exact ⟨j, hj, hle⟩
  · intro d st inp raw v ms hraw hne hd hf hbig
    exact ⟨execute_too_large d st inp raw v ms hraw hne hd hf hbig,
      tooLargeReason_marker _, tooLargeReason_len _, tooLargeReason_max _⟩
  · obtain ⟨ms, hf, hlen, hbig⟩ := c1_findMatches
    exact ⟨⟨false, ms.length, none, some (tooLargeReason (stringifyMatches ms).length)⟩,
      execute_too_large c1Decode c1Store c1Input "snapshot" c1Val ms rfl (by decide) rfl hf
        hbig,
      rfl, hlen, _, rfl, tooLargeReason_marker _⟩

/-- C1 witness: a concrete successful invocation whose returned payload is
within the budget. -/
theorem claim_C1_witness :
    ∃ j, (ToolResult.mk true 1 (some (stringifyMatches [nodeOfLine "row" []])) none).json =
      some j ∧ j.length ≤ MAX_JSON_CHARS :=
  claim_C1.1 (fun _ => .ok (.str "row")) [("v", "x")]
    ⟨"v", none, none, none, false, .all, none, none⟩
    (ToolResult.mk true 1 (some (stringifyMatches [nodeOfLine "row" []])) none)
    [("v", "x")] (by rfl) rfl

set_option maxHeartbeats 4000000 in
theorem c2_count1_eq : c2Count1 = 3 := by decide

set_option maxHeartbeats 4000000 in
theorem c2_count2_eq : c2Count2 = 2 := by decide

set_option maxHeartbeats 4000000 in
theorem c2_count3_eq : c2Count3 = 1 := by decide

set_option maxHeartbeats 4000000 in
theorem c2_texts2_eq : c2Texts2 = [some "Item A", some "Item B"] := by decide

set_option maxHeartbeats 4000000 in
theorem c2_texts3_eq : c2Texts3 = [some "Item A"] := by decide

/-- C2: chained filtering.  Filtering the three-row table by role "row" in
all mode yields 3 matches; re-filtering the stored serialized JSON result
with a contains-"Item" text filter yields the 2 matches "Item A" and
"Item B"; and re-filtering that stored result with the kind=a attribute
filter yields the single match "Item A".  The second and third stages run
the JSON-source sibling tool (modelled from the spec) on the previously
stored serialized match list. -/
theorem claim_C2 :
    c2Count1 = 3 ∧ c2Count2 = 2 ∧ c2Count3 = 1 ∧
    c2Texts2 = [some "Item A", some "Item B"] ∧ c2Texts3 = [some "Item A"] :=
  ⟨c2_count1_eq, c2_count2_eq, c2_count3_eq, c2_texts2_eq, c2_texts3_eq⟩

/-- C3 (amended): every node the forest builder produces carries a present
text field — the empty string when the line has no whitespace-preceded
nonempty quoted segment — and while a null/undefined candidate never matches
any text predicate, the empty-string default can match one; the extracted
text is the content of the first nonempty double-quoted segment preceded by
whitespace, wherever it occurs in the line. -/
theorem claim_C3 :
    (∀ v : DecodedValue, ∀ n ∈ preorderList (buildNodes v), n.text.isSome = true) ∧
    (∀ m : TextMatch, textMatches none (some m) = .ok false) ∧
    (textMatches (some "") (some (.contains "")) = .ok true) ∧
    ((parseDescriptor "row").text = "" ∧ (parseDescriptor "row\"x\"").text = "" ∧
      (parseDescriptor "a \"\" \"y\"").text = "y" ∧
      (parseDescriptor "row [k=v] \"Hi\"").text = "Hi") :=
  ⟨buildNodes_text_present, fun m => by cases m <;> rfl, rfl, by decide⟩

/-- C3 witness: the node parsed from the quoteless line "row" has a present
text field, and an absent candidate fails an equals predicate. -/
theorem claim_C3_witness :
    (nodeOfLine "row" []).text.isSome = true ∧
    textMatches none (some (.equals "x")) = .ok false :=
  ⟨claim_C3.1 (.str "row") (nodeOfLine "row" [])
    (show nodeOfLine "row" [] ∈ preorderList (buildNodes (.str "row")) from
      List.Mem.head _),
   claim_C3.2.1 (.equals "x")⟩

/-- C3 counterexample: the line "row" contains no quoted segment, yet the
built node's text is present (some of the empty string, not absent), and
that node's text does satisfy a text predicate. -/
theorem counterexample_C3 :
    (buildNodes (.str "row")).map (fun n => n.text) = [some ""] ∧
    textMatches (some "") (some (.contains "")) = .ok true :=
  ⟨by decide, rfl⟩

/-- C4: document-order invariant.  In all mode (for a filter whose regex, if
any, compiles, and whose maxResults is not the falsy zero), the result is
exactly the copies of the depth-first pre-order traversal restricted to
nodes passing the conjunction of the predicates, truncated to the first
maxResults matches when a cap is set; descendants of matched nodes are part
of the traversal and can match independently. -/
theorem claim_C4 (f : FindFilter) (ns : List AccessibilityNode)
    (hm : f.mode = .all) (hc : compileOk f) (hmr : f.maxResults ≠ some 0) :
    findMatches ns f =
      .ok (match f.maxResults with
        | none => ((preorderList ns).filter (fun n => nodeMatchesB f n)).map (mkCopy f)
        | some m =>
          (((preorderList ns).filter (fun n => nodeMatchesB f n)).map (mkCopy f)).take m) := by
  rw [findMatches_all f hm hc ns, effCap_of_ne_zero f.maxResults hmr]
  cases f.maxResults <;> rfl

/-- C4 witness: the capped all-mode result on a concrete three-node forest. -/
theorem claim_C4_witness :
    findMatches (buildNodes (.arr [.str "row \"A\"", .str "link \"B\"", .str "row \"C\""]))
      ⟨some (.inl "row"), none, none, false, .all, some 1⟩ =
      .ok ((((preorderList (buildNodes (.arr [.str "row \"A\"", .str "link \"B\"",
        .str "row \"C\""]))).filter (fun n => nodeMatchesB
          ⟨some (.inl "row"), none, none, false, .all, some 1⟩ n)).map
        (mkCopy ⟨some (.inl "row"), none, none, false, .all, some 1⟩)).take 1) :=
  claim_C4 ⟨some (.inl "row"), none, none, false, .all, some 1⟩ _ rfl (by exact trivial)
    (by decide)

/-- C5: first-mode subset property.  With mode first (same filter otherwise),
the result list is the first element, if any, of the all-mode result list;
and as soon as a node matches, the visit returns immediately with the global
stop flag — it records exactly one copy and descends into no children. -/
theorem claim_C5 (f : FindFilter) (ns : List AccessibilityNode)
    (hm : f.mode = .first) (hc : compileOk f) (hmr : f.maxResults ≠ some 0) :
    (∃ la, findMatches ns {f with mode := FilterMode.all} = .ok la ∧
      findMatches ns f = .ok (la.take 1)) ∧
    (∀ (n : AccessibilityNode) (acc : List AccessibilityNode), nodeMatchesB f n = true →
      visit f n acc = .ok (acc ++ [mkCopy f n], true)) := by
  constructor
  · have hca : compileOk ({f with mode := FilterMode.all}) := hc
    refine ⟨_, findMatches_all {f with mode := FilterMode.all} rfl hca ns, ?_⟩
    rw [findMatches_first f hm hc ns]
    congr 1
    show (matchedPre f ns).take 1 = (optTake (effCap f.maxResults) (matchedPre f ns)).take 1
    cases he : effCap f.maxResults with
    | none => rfl
    | some m =>
      rw [optTake, List.take_take]
      have hpos := effCap_some_pos f.maxResults m he
      rw [show min 1 m = 1 from by omega]
  · intro n acc hmatch
    cases n with
    | mk r t a cs raw =>
      rw [visit, nodeMatches_eq_ok hc]
      simp only [Bind.bind, Except.bind, hmatch, if_true, hm]
      rw [if_pos (by simp)]
      rfl

/-- C5 witness: the first-mode result on a concrete forest is the first
element of the all-mode result. -/
theorem claim_C5_witness :
    ∃ la, findMatches (buildNodes (.arr [.str "row \"A\"", .str "row \"B\""]))
        {(⟨some (.inl "row"), none, none, false, FilterMode.first, none⟩ : FindFilter) with
          mode := FilterMode.all} = .ok la ∧
      findMatches (buildNodes (.arr [.str "row \"A\"", .str "row \"B\""]))
        ⟨some (.inl "row"), none, none, false, FilterMode.first, none⟩ = .ok (la.take 1) :=
  (claim_C5 ⟨some (.inl "row"), none, none, false, FilterMode.first, none⟩
    (buildNodes (.arr [.str "row \"A\"", .str "row \"B\""])) rfl (by exact trivial)
    (by decide)).1

/-- C6: subtree toggle.  Every returned match is the recorded copy of a
matching node of the pre-order traversal; the copy's children are empty when
includeSubtree is false and the node's real subtree when it is true, with
role, text, attributes and rawDescriptor always preserved; the deep copy is
structurally identical to the original. -/
theorem claim_C6 (f : FindFilter) (ns : List AccessibilityNode) (hc : compileOk f) :
    (∀ res, findMatches ns f = .ok res →
      ∀ x ∈ res, ∃ n, n ∈ preorderList ns ∧ nodeMatchesB f n = true ∧ x = mkCopy f n) ∧
    (∀ n : AccessibilityNode,
      (mkCopy f n).children = (if f.includeSubtree then n.children else [])) ∧
    (∀ n : AccessibilityNode, (mkCopy f n).role = n.role ∧ (mkCopy f n).text = n.text ∧
      (mkCopy f n).attributes = n.attributes ∧
      (mkCopy f n).rawDescriptor = n.rawDescriptor) ∧
    (∀ n : AccessibilityNode, cloneNode n = n) := by
  refine ⟨?_, ?_, ?_, cloneNode_id⟩
  · intro res hres x hx
    exact findMatches_mem f ns res x hc hres hx
  · intro n
    show (if f.includeSubtree then cloneNodeList n.children else []) = _
    rw [cloneNodeList_id]
  · intro n
    exact ⟨rfl, rfl, rfl, rfl⟩

/-- C6 witness: the single result on a concrete source is the copy of a
matching traversal node. -/
theorem claim_C6_witness :
    ∃ n, n ∈ preorderList (buildNodes (.str "row \"A\"")) ∧
      nodeMatchesB (⟨none, none, none, false, FilterMode.all, none⟩ : FindFilter) n = true ∧
      mkCopy (⟨none, none, none, false, FilterMode.all, none⟩ : FindFilter)
          (nodeOfLine "row \"A\"" []) =
        mkCopy ⟨none, none, none, false, FilterMode.all, none⟩ n :=
  (claim_C6 ⟨none, none, none, false, FilterMode.all, none⟩ (buildNodes (.str "row \"A\""))
    (by exact trivial)).1
    [mkCopy ⟨none, none, none, false, FilterMode.all, none⟩ (nodeOfLine "row \"A\"" [])]
    (by rfl)
    (mkCopy ⟨none, none, none, false, FilterMode.all, none⟩ (nodeOfLine "row \"A\"" []))
    (List.Mem.head _)

/-- C7: parser totality and defaults.  The parser agrees everywhere with the
specification-worded parser (leading word-character run as the role with the
generic default, first whitespace-preceded nonempty quoted segment as the
text, bracketed segments scanned left to right and split at the first equals
sign with both sides trimmed, equals-free segments stored as "true" flags),
and malformed input degrades to the defaults instead of failing. -/
theorem claim_C7 :
    (∀ s, parseDescriptor s = parseDescriptorSpec s) ∧
    parseDescriptor "" = ⟨"generic", "", []⟩ ∧
    parseDescriptor "!!! ???" = ⟨"generic", "", []⟩ ∧
    parseDescriptor "row [checked] [level=2]" =
      ⟨"row", "", [("checked", "true"), ("level", "2")]⟩ ∧
    parseDescriptor "x [ a = b = c ]" = ⟨"x", "", [("a", "b = c")]⟩ :=
  ⟨parseDescriptor_eq_spec, by decide, by decide, by decide, by decide⟩

/-- C8: text-matching semantics.  equals is a case-insensitive trimmed full
match, contains the analogous substring (infix) test, and the regex
predicate compiles the given pattern with the given flags and tests it
against the lowercased trimmed candidate; on the three concrete rows, the
case-insensitive anchored pattern matches exactly "Item A" and "item b". -/
theorem claim_C8 :
    (∀ c e : String, textMatches (some c) (some (.equals e)) =
      .ok (lowerTrim c == lowerTrim e)) ∧
    (∀ c t : String, textMatches (some c) (some (.contains t)) =
      .ok (decide ((lowerTrim t).data <:+: (lowerTrim c).data))) ∧
    (∀ (c p : String) (fl : Option String) (re : CompiledRegex),
      compileRegex p (fl.getD "") = some re →
      textMatches (some c) (some (.regex p fl)) = .ok (regexTest re (lowerTrim c))) ∧
    ((resultList (findMatches c8Nodes c8Filter)).map (fun n => n.text) =
      [some "Item A", some "item b"]) := by
  refine ⟨fun c e => rfl, ?_, ?_, by decide⟩
  · intro c t
    rw [textMatches]
    congr 1
    have h := listIncludes_iff (lowerTrim c).data (lowerTrim t).data
    cases hi : listIncludes (lowerTrim c).data (lowerTrim t).data with
    | true => exact (decide_eq_true (h.mp hi)).symm
    | false =>
      have hP : ¬ (lowerTrim t).data <:+: (lowerTrim c).data := by
        intro hp
        rw [h.mpr hp] at hi
        cases hi
      exact (decide_eq_false hP).symm
  · intro c p fl re hre
    rw [textMatches]
    simp only [hre]

/-- C8 witness: the regex predicate applied to a concrete candidate equals
the compiled regex tested against the lowercased trimmed candidate. -/
theorem claim_C8_witness :
    textMatches (some "Item A") (some (.regex "^item [ab]$" (some "i"))) =
      .ok (regexTest ⟨[.anchorStart, .lit 'i', .lit 't', .lit 'e', .lit 'm', .lit ' ',
        .cls false ['a', 'b'], .anchorEnd], true⟩ (lowerTrim "Item A")) :=
  claim_C8.2.2.1 "Item A" "^item [ab]$" (some "i") _ (by decide)

/-- C9 (amended): a plain string becomes one leaf node; a list contributes
the concatenation of its items' nodes; a single-key object is a descriptor
node exactly when its key does not start with "/" AND its value is an array
(isDescriptorObject), the key parsed as the descriptor and the array built
recursively as the children; every other object — including single-key
objects with non-array values — and every other scalar contributes no
nodes. -/
theorem claim_C9 :
    (∀ s, buildNodes (.str s) = [nodeOfLine s []]) ∧
    (∀ items, buildNodes (.arr items) = buildNodesList items) ∧
    (buildNodesList [] = [] ∧
      ∀ v rest, buildNodesList (v :: rest) = buildNodes v ++ buildNodesList rest) ∧
    (∀ k v, buildNodes (.obj [(k, v)]) =
      (if isDescriptorObject [(k, v)] then
        [nodeOfLine k (match v with | .arr items => buildNodesList items | _ => [])]
      else [])) ∧
    (∀ fields, fields.length ≠ 1 → buildNodes (.obj fields) = []) ∧
    buildNodes .scalar = [] :=
  ⟨fun _ => rfl, fun _ => rfl, ⟨rfl, fun _ _ => rfl⟩, buildNodes_obj_single,
    buildNodes_obj_multi, rfl⟩

/-- C9 witness: a multi-key object contributes no nodes. -/
theorem claim_C9_witness :
    buildNodes (.obj [("a", .scalar), ("b", .scalar)]) = [] :=
  claim_C9.2.2.2.2.1 [("a", .scalar), ("b", .scalar)] (by decide)

/-- C9 counterexample: the key "button" is not a reserved property-path
marker, yet the single-key object with a non-array value contributes no
nodes — the claim would require it to become a descriptor node. -/
theorem counterexample_C9 :
    startsWithSlash "button" = false ∧
    buildNodes (.obj [("button", .str "hi")]) = [] :=
  ⟨rfl, rfl⟩

/-- C10 (amended): every handled failure condition is returned as a
structured value — a missing or empty source variable with the
variable-not-found reason, an undecodable source with the decoder's message
in the reason — the store is unchanged on every failure result, a success
writes exactly the returned payload under a nonempty storeInVariable name,
and for every filter whose regex (if any) compiles the tool never throws;
an invalid regular-expression pattern, however, escapes as a thrown error. -/
theorem claim_C10 :
    (∀ (d : String → Except String DecodedValue) (st : List (String × String))
      (inp : ToolInput), getVariable st inp.varName = none →
      snapshotGetAndFilterExecute d st inp =
        .ok (⟨false, 0, none, some (varNotFoundReason inp.varName)⟩, st)) ∧
    (∀ d st inp, getVariable st inp.varName = some "" →
      snapshotGetAndFilterExecute d st inp =
        .ok (⟨false, 0, none, some (varNotFoundReason inp.varName)⟩, st)) ∧
    (∀ d st inp raw msg, getVariable st inp.varName = some raw → raw ≠ "" →
      d raw = .error msg →
      snapshotGetAndFilterExecute d st inp =
        .ok (⟨false, 0, none, some ("Failed to parse YAML: " ++ msg)⟩, st) ∧
      strContains ("Failed to parse YAML: " ++ msg) msg = true) ∧
    (∀ d st inp res st2, snapshotGetAndFilterExecute d st inp = .ok (res, st2) →
      res.success = false → st2 = st) ∧
    (∀ d st inp res st2 nm, snapshotGetAndFilterExecute d st inp = .ok (res, st2) →
      res.success = true → inp.storeInVariable = some nm → nm ≠ "" →
      ∃ j, res.json = some j ∧ st2 = setVariable st nm j) ∧
    (∀ d st inp, compileOk (filterOf inp) →
      ∃ r, snapshotGetAndFilterExecute d st inp = .ok r) := by
  refine ⟨execute_missing_var, execute_empty_var, ?_, ?_, ?_, execute_ok_of_compileOk⟩
  · intro d st inp raw msg hraw hne hd
    exact ⟨execute_decode_error d st inp raw msg hraw hne hd, decode_error_reason_contains msg⟩
  · intro d st inp res st2 hok hfs
    rcases execute_spec d st inp with herr | ⟨res2, st3, hok2, hcase⟩
    · rw [herr] at hok; cases hok
    · rw [hok2] at hok
      injection hok with hok
      injection hok with h1 h2
      subst h1
      subst h2
      rcases hcase with ⟨_, hst, _⟩ | ⟨hts, _⟩
      · exact hst
      · rw [hts] at hfs; cases hfs
  · intro d st inp res st2 nm hok hts hnm hne
    rcases execute_spec d st inp with herr | ⟨res2, st3, hok2, hcase⟩
    · rw [herr] at hok; cases hok
    · rw [hok2] at hok
      injection hok with hok
      injection hok with h1 h2
      subst h1
      subst h2
      rcases hcase with ⟨hfs, _, _⟩ | ⟨_, j, hj, _, hst⟩
      · rw [hfs] at hts; cases hts
      · refine ⟨j, hj, ?_⟩
        rw [hst, hnm]
        show (if nm = "" then st else setVariable st nm j) = setVariable st nm j
        rw [if_neg hne]

/-- C10 witness: a missing variable returns the structured not-found failure
and leaves the store unchanged. -/
theorem claim_C10_witness :
    snapshotGetAndFilterExecute (fun _ => .ok .scalar) []
      ⟨"v", none, none, none, false, .all, none, none⟩ =
      .ok (⟨false, 0, none, some (varNotFoundReason "v")⟩, []) :=
  claim_C10.1 (fun _ => .ok .scalar) [] ⟨"v", none, none, none, false, .all, none, none⟩ rfl

/-- C10 counterexample: an invalid regular-expression pattern in the text
filter makes the tool throw (the RegExp construction inside the traversal
raises, uncaught), so the call produces no structured result at all. -/
theorem counterexample_C10 :
    snapshotGetAndFilterExecute (fun _ => .ok (.str "row")) [("v", "x")]
      ⟨"v", none, some (.regex "[" none), none, false, .all, none, none⟩ = .error () :=
  rfl

end Corpo
